import Mathlib

/-
Verification of the JSSP data-intake layer (src/JSSP/data.py) and the tabu
search coordinator (src/JSSP/solver.py) of the Job_Shop_Schedule_Problem
repository.

The Python code is shallowly embedded:
* numeric csv / fjs content is modelled after tokenization (the integers a
  line splits into); the `Usable_Machines` csv field is kept at token level
  (the list of strings that `row[3][1:-1].strip().split(' ')` produces,
  which is `[""]` when the bracket content is empty) because its integer
  parsing can fail, which data.py relies on;
* Python `int(...)` on an optional-sign decimal token is `strToInt?`, and
  the f-string rendering of an integer is `intRepr`;
* numpy matrices are lists of rows; `np.resize` is `npResize` (zero-filling
  an empty source array exactly as numpy does); in-place indexed writes are
  folds of `List.set`;
* machine indices are assumed non-negative where numpy would wrap a negative
  index to the end of the axis: every claim below only concerns inputs whose
  indices are in range, and out-of-range writes are tracked by explicit
  validity checks mirroring numpy IndexError;
* processing times live in ℚ (the csv intake divides Pieces by a machine
  speed; the fjs intake stores integers into a float matrix).
-/

namespace JSSP

/-! ### Decimal rendering and parsing (Python `int(token)` / f-string) -/

/-- Decimal digit to character; only applied to values below 10. -/
def digitChar (d : ℕ) : Char :=
  if d = 0 then '0'
  else if d = 1 then '1'
  else if d = 2 then '2'
  else if d = 3 then '3'
  else if d = 4 then '4'
  else if d = 5 then '5'
  else if d = 6 then '6'
  else if d = 7 then '7'
  else if d = 8 then '8'
  else if d = 9 then '9'
  else '0'

/-- Character to decimal digit, `none` on a non-digit. -/
def charDigit? (c : Char) : Option ℕ :=
  if c = '0' then some 0
  else if c = '1' then some 1
  else if c = '2' then some 2
  else if c = '3' then some 3
  else if c = '4' then some 4
  else if c = '5' then some 5
  else if c = '6' then some 6
  else if c = '7' then some 7
  else if c = '8' then some 8
  else if c = '9' then some 9
  else none

/-- Little-endian base-10 digits, fuel-driven so that the kernel can
evaluate it on concrete inputs. -/
def natDigitsAux : ℕ → ℕ → List ℕ
  | 0, _ => []
  | _ + 1, 0 => []
  | fuel + 1, n + 1 => (n + 1) % 10 :: natDigitsAux fuel ((n + 1) / 10)

/-- Little-endian base-10 digits of `n`. -/
def natDigits (n : ℕ) : List ℕ := natDigitsAux n n

/-- Characters of the decimal rendering of a natural number (Python str). -/
def natReprChars (n : ℕ) : List Char :=
  if n = 0 then ['0'] else ((natDigits n).map digitChar).reverse

/-- Python `str(z)` / f-string rendering of an integer. -/
def intRepr (z : ℤ) : String :=
  if z < 0 then String.mk ('-' :: natReprChars (-z).toNat)
  else String.mk (natReprChars z.toNat)

/-- Parse a list of characters as decimal digits. -/
def parseDigits : List Char → Option (List ℕ)
  | [] => some []
  | c :: cs =>
    match charDigit? c, parseDigits cs with
    | some d, some ds => some (d :: ds)
    | _, _ => none

/-- Parse a non-empty all-digit character list as a natural number;
`none` otherwise (Python `int("")` and `int("x")` raise ValueError). -/
def strToNatChars (cs : List Char) : Option ℕ :=
  if cs.isEmpty then none
  else (parseDigits cs).map (fun ds => Nat.ofDigits 10 ds.reverse)

/-- Python `int(token)` on an optional-sign decimal token. -/
def strToInt? (s : String) : Option ℤ :=
  match s.data with
  | [] => none
  | c :: rest =>
    if c = '-' then (strToNatChars rest).map (fun n => -(n : ℤ))
    else (strToNatChars (c :: rest)).map (fun n => (n : ℤ))

/-- Python `[int(x) for x in tokens]`: all tokens must parse. -/
def parseIntList : List String → Option (List ℤ)
  | [] => some []
  | s :: rest =>
    match strToInt? s, parseIntList rest with
    | some v, some vs => some (v :: vs)
    | _, _ => none

/-! ### numpy resize -/

/-- Model of `np.resize(a, m)` for a 1-d integer array: cyclically repeat
the source to length `m`; an empty source array is zero-filled (numpy
`resize` zero-fills when `a.size == 0`). -/
def npResize (l : List ℤ) (m : ℕ) : List ℤ :=
  if l.length = 0 then List.replicate m 0
  else (List.range m).map (fun i => l.getD (i % l.length) 0)

/-! ### FJS files (data.py FJSData.__init__ / Data.convert_fjs_to_csv) -/

/-- One task block of an fjs job line: the `(one-indexed machine, runtime)`
pairs following the usable-machine count. -/
abbrev Block := List (ℤ × ℤ)

/-- A tokenized fjs file: `numJobs`/`numMachines` are `first_line[0]` and
`first_line[1]` (data.py:470-471), `jobLines` the integer lists each
subsequent non-blank line splits into (data.py:467,477,503). -/
structure FJSFile where
  numJobs : ℕ
  numMachines : ℕ
  jobLines : List (List ℤ)
deriving DecidableEq

/-- Group a flat integer list into consecutive pairs, as the inner
`for j in range(i+1, i+num_usable_machines*2+1, 2)` loop reads
`(task_data[j], task_data[j+1])` (data.py:510-512). -/
def pairUp : List ℤ → List (ℤ × ℤ)
  | a :: b :: rest => (a, b) :: pairUp rest
  | _ => []

/-- The `while i < len(task_data)` loop of data.py:506-525 (and the
identical loop of data.py:274-286): read a usable-machine count `u`, then
`u` machine/runtime pairs, and continue after them.  Fuel-driven (one list
element is consumed per step, so `fuel = length` suffices); a negative `u`
makes the Python loop diverge and is outside every claim below. -/
def taskBlocksAux : ℕ → List ℤ → List Block
  | 0, _ => []
  | _ + 1, [] => []
  | fuel + 1, u :: rest =>
    pairUp (rest.take (2 * u.toNat)) :: taskBlocksAux fuel (rest.drop (2 * u.toNat))

/-- All task blocks of one job line (the part after the leading count). -/
def taskBlocks (l : List ℤ) : List Block := taskBlocksAux l.length l

/-- `total_number_of_tasks`: the sum of the leading counts of the job
lines (data.py:479-480; convert_fjs_to_csv accumulates the same sum at
data.py:268). -/
def FJSFile.totalTasks (f : FJSFile) : ℕ :=
  (f.jobLines.map (fun l => l.headI.toNat)).sum

/-- `max_tasks_for_a_job` (data.py:481). -/
def FJSFile.maxTasks (f : FJSFile) : ℕ :=
  f.jobLines.foldl (fun acc l => max l.headI.toNat acc) 0

/-- The task blocks of every job, in file order: this is the order in
which `task_index` enumerates tasks in data.py:493-524. -/
def fjsTasksAll (f : FJSFile) : List Block :=
  (f.jobLines.map (fun l => taskBlocks l.tail)).flatten

/-- Row of `task_processing_times_matrix` for one task: start from a row
of `-1` and write `runtime` at `machine - 1` for every pair
(data.py:511-515); a later duplicate machine overwrites an earlier one. -/
def fjsProcRow (m : ℕ) (ps : Block) : List ℚ :=
  ps.foldl (fun row p => row.set (p.1 - 1).toNat (p.2 : ℚ)) (List.replicate m (-1))

/-- The Data fields that the claims inspect. -/
structure JsspData where
  total_number_of_jobs : ℕ
  total_number_of_machines : ℕ
  total_number_of_tasks : ℕ
  max_tasks_for_a_job : ℕ
  sequence_dependency_matrix : List (List ℤ)
  usable_machines_matrix : List (List ℤ)
  task_processing_times_matrix : List (List ℚ)
  machine_speeds : List ℚ
deriving DecidableEq

/-- FJSData.__init__ (data.py:453-527).  `machine_speeds` stays at its
`None` default, modelled as `[]`.  The matrices are written row by row for
`task_index = 0, 1, ...`, which is the same as mapping the row builders
over `fjsTasksAll`; rows the loop never reaches (only possible on
inconsistent counts, excluded by `fjsOk` below) are omitted. -/
def FJSData (f : FJSFile) : JsspData :=
  { total_number_of_jobs := f.numJobs
    total_number_of_machines := f.numMachines
    total_number_of_tasks := f.totalTasks
    max_tasks_for_a_job := f.maxTasks
    sequence_dependency_matrix :=
      List.replicate f.totalTasks (List.replicate f.totalTasks 0)
    usable_machines_matrix :=
      (fjsTasksAll f).map (fun ps => npResize (ps.map (fun p => p.1 - 1)) f.numMachines)
    task_processing_times_matrix := (fjsTasksAll f).map (fjsProcRow f.numMachines)
    machine_speeds := [] }

/-- FJSData.__init__ completes without an exception: every indexed numpy
write of the loop is in range.  `task_index < totalTasks` for the row
writes at data.py:515,518; `task_id < maxTasks` and `job_id < numJobs` for
the write at data.py:520; `0 ≤ machine - 1 < numMachines` for the column
of the write at data.py:515 (negative-index wrapping is not modelled). -/
def fjsOk (f : FJSFile) : Bool :=
  decide ((fjsTasksAll f).length ≤ f.totalTasks) &&
  decide (f.jobLines.length ≤ f.numJobs) &&
  f.jobLines.all (fun l => decide ((taskBlocks l.tail).length ≤ f.maxTasks)) &&
  (fjsTasksAll f).all (fun ps =>
    ps.all (fun p => decide (1 ≤ p.1) && decide (p.1 ≤ (f.numMachines : ℤ))))

/-! ### Structured fjs instances and their flat encoding -/

/-- A structured fjs instance: per job, per task, the one-indexed
machine/runtime pairs.  Claims about "every well-formed fjs file" quantify
over these and pass their flat encoding to the parsers above. -/
structure FJSShape where
  numMachines : ℕ
  jobs : List (List Block)
deriving DecidableEq

/-- Flat encoding of one task block: the usable count then the pairs. -/
def encodeBlock (ps : Block) : List ℤ :=
  (ps.length : ℤ) :: (ps.map (fun p => [p.1, p.2])).flatten

/-- Flat encoding of one job line: the task count then the blocks. -/
def encodeLine (tasks : List Block) : List ℤ :=
  (tasks.length : ℤ) :: (tasks.map encodeBlock).flatten

/-- Flat encoding of a structured fjs instance. -/
def encodeFJS (s : FJSShape) : FJSFile :=
  { numJobs := s.jobs.length
    numMachines := s.numMachines
    jobLines := s.jobs.map encodeLine }

/-- All task blocks of a structured instance, in file order. -/
def fjsBlocks (s : FJSShape) : List Block := s.jobs.flatten

/-- Well-formedness of a structured fjs instance: at least one job, at
least one task per job, at least one usable machine per task, and every
machine id one-indexed into the machine range. -/
def FJSWellFormed (s : FJSShape) : Prop :=
  s.jobs ≠ [] ∧ ∀ job ∈ s.jobs, job ≠ [] ∧ ∀ ps ∈ job,
    ps ≠ [] ∧ ∀ p ∈ ps, 1 ≤ p.1 ∧ p.1 ≤ (s.numMachines : ℤ)

instance (s : FJSShape) : Decidable (FJSWellFormed s) := by
  unfold FJSWellFormed; infer_instance

/-- Every task block lists the same runtime on all of its machines (the
property under which the fjs→csv conversion is lossless). -/
def UniformTimes (s : FJSShape) : Prop :=
  ∀ job ∈ s.jobs, ∀ ps ∈ job, ∀ p ∈ ps, p.2 = ps.headI.2

instance (s : FJSShape) : Decidable (UniformTimes s) := by
  unfold UniformTimes; infer_instance

/-! ### CSV files (data.py CSVData) -/

/-- One data row of jobTasks.csv after the csv reader: `Job`, `Task`,
`Sequence` and `Pieces` as parsed integers, the `Usable_Machines` field as
the token list `row[3][1:-1].strip().split(' ')` (which is `[""]` for an
empty bracket `[]`, since splitting the empty string yields it). -/
structure JobTaskRow where
  job : ℕ
  task : ℕ
  seq : ℕ
  usableTokens : List String
  pieces : ℤ
deriving DecidableEq

/-- The three csv inputs of CSVData, each without its header line. -/
structure CSVFiles where
  jobTasksRows : List JobTaskRow
  seqDepRows : List (List ℤ)
  machineSpeedRows : List ℤ
deriving DecidableEq

/-- The Task objects data.py builds from csv rows (data.py:387-393);
`usable` is the parsed machine list. -/
structure CTask where
  job_id : ℕ
  task_id : ℕ
  sequence : ℕ
  usable : List ℤ
  pieces : ℤ
deriving DecidableEq, Inhabited

/-- Append one task to the task list of the job stored at position `i`
(the `self.jobs[task.get_job_id()].get_tasks().append(task)` of
data.py:404). -/
def appendTask (jobs : List (ℕ × List CTask)) (i : ℕ) (t : CTask) :
    List (ℕ × List CTask) :=
  jobs.set i ((jobs.getD i (0, [])).1, (jobs.getD i (0, [])).2 ++ [t])

/-- The row loop of `_read_job_tasks_file` (data.py:381-404): parse each
row's usable machines (ValueError aborts), open a new Job whenever the job
id differs from the previous row's, then append the Task to
`jobs[job_id]` (IndexError if that position does not exist). -/
def readJobTasksAux :
    ℤ → List (ℕ × List CTask) → List JobTaskRow →
    Except String (List (ℕ × List CTask))
  | _, jobs, [] => Except.ok jobs
  | prev, jobs, r :: rs =>
    match parseIntList r.usableTokens with
    | none => Except.error ("ValueError")
    | some us =>
      let jobs1 := if (r.job : ℤ) ≠ prev then jobs ++ [(r.job, [])] else jobs
      if r.job < jobs1.length then
        readJobTasksAux (r.job) (appendTask jobs1 r.job ⟨r.job, r.task, r.seq, us, r.pieces⟩) rs
      else Except.error ("IndexError")

/-- `_read_job_tasks_file` starting from `prev_job_id = -1` and no jobs. -/
def readJobTasks (rows : List JobTaskRow) :
    Except String (List (ℕ × List CTask)) :=
  readJobTasksAux (-1) [] rows

/-- All tasks in the order `for job in self.jobs: for task in
job.get_tasks():` visits them (data.py:352-353). -/
def csvTasks (jobs : List (ℕ × List CTask)) : List CTask :=
  (jobs.map (fun j => j.2)).flatten

/-- `np.array(..., dtype=np.float)` over an integer column
(data.py:440): the machine speeds as rationals. -/
def floatArray (rows : List ℤ) : List ℚ :=
  rows.map (fun x : ℤ => (x : ℚ))

/-- Row of `task_processing_times_matrix` for one csv task: start from
`-1` and write `pieces / machine_speeds[machine]` at every usable machine
(data.py:363-365). -/
def csvProcRow (m : ℕ) (speeds : List ℚ) (t : CTask) : List ℚ :=
  t.usable.foldl
    (fun row mi => row.set mi.toNat ((t.pieces : ℚ) / speeds.getD mi.toNat 0))
    (List.replicate m (-1))

/-- The numpy write bounds of the matrix loop of data.py:350-367: at most
`T` matrix rows are written, every usable machine id must index the `M`
columns and the speeds array, and the
`job_task_index_matrix[job_id, task_id]` write of data.py:356 needs
`job_id < len(jobs)` and `task_id < max_tasks_for_a_job`. -/
def csvChecks (jobs : List (ℕ × List CTask)) (t m : ℕ) : Bool :=
  decide ((csvTasks jobs).length ≤ t) &&
  (csvTasks jobs).all (fun tk =>
    tk.usable.all (fun mi => decide (0 ≤ mi) && decide (mi < (m : ℤ))) &&
    decide (tk.job_id < jobs.length) &&
    decide (tk.task_id < jobs.foldl (fun a j => max j.2.length a) 0))

/-- The instance record CSVData builds once all reads succeeded
(data.py:341-367): `total_number_of_tasks` is the number of
dependency-matrix data rows, `max_tasks_for_a_job` the largest per-job
task count, the dependency matrix drops each row's index prefix, and the
usable/processing-time matrices are built row by row over the tasks. -/
def csvRecord (files : CSVFiles) (jobs : List (ℕ × List CTask)) : JsspData :=
  { total_number_of_jobs := jobs.length
    total_number_of_machines := files.machineSpeedRows.length
    total_number_of_tasks := files.seqDepRows.length
    max_tasks_for_a_job := jobs.foldl (fun a j => max j.2.length a) 0
    sequence_dependency_matrix := files.seqDepRows.map (fun r => r.tail)
    usable_machines_matrix :=
      (csvTasks jobs).map (fun tk => npResize tk.usable files.machineSpeedRows.length)
    task_processing_times_matrix :=
      (csvTasks jobs).map (csvProcRow files.machineSpeedRows.length
        (floatArray files.machineSpeedRows))
    machine_speeds := floatArray files.machineSpeedRows }

/-- CSVData.__init__ (data.py:317-367).  Reading order follows the
source: job tasks first (so a usable-machine parse error surfaces before
anything else), then the dependency matrix and machine speeds.  Python
`max` on an empty jobs list raises ValueError (data.py:343); an
out-of-range numpy write raises IndexError. -/
def CSVData (files : CSVFiles) : Except String JsspData :=
  match readJobTasks files.jobTasksRows with
  | Except.error e => Except.error e
  | Except.ok jobs =>
    if jobs.isEmpty then Except.error ("ValueError")
    else if csvChecks jobs files.seqDepRows.length files.machineSpeedRows.length
    then Except.ok (csvRecord files jobs)
    else Except.error ("IndexError")

/-! ### Data.convert_fjs_to_csv (data.py:231-298) -/

/-- The jobTasks.csv rows one job line produces, with `task_id` and
`sequence` counting up together from 0 (data.py:269-285): machine tokens
are rendered zero-indexed (data.py:279-280) and `Pieces` is
`task_data[i + 2]`, the runtime of the first listed pair of the block
(data.py:282). -/
def convertLineRows (jobId : ℕ) : ℕ → List Block → List JobTaskRow
  | _, [] => []
  | taskId, ps :: rest =>
    { job := jobId
      task := taskId
      seq := taskId
      usableTokens := ps.map (fun p => intRepr (p.1 - 1))
      pieces := ps.headI.2 : JobTaskRow } :: convertLineRows jobId (taskId + 1) rest

/-- The `for job_id, tasks in enumerate(lines[1:])` loop of data.py:264,
one row run per job line. -/
def convertRowsAux : ℕ → List (List ℤ) → List (List JobTaskRow)
  | _, [] => []
  | jobId, line :: rest =>
    convertLineRows jobId 0 (taskBlocks line.tail) :: convertRowsAux (jobId + 1) rest

/-- All jobTasks.csv data rows the conversion writes, in file order. -/
def convertRows (f : FJSFile) : List JobTaskRow :=
  (convertRowsAux 0 f.jobLines).flatten

/-- The Task object `_read_job_tasks_file` builds from a row whose
usable-machine tokens parse. -/
def rowTask (r : JobTaskRow) : CTask :=
  ⟨r.job, r.task, r.seq, (parseIntList r.usableTokens).getD [], r.pieces⟩

/-- The Task objects the csv intake is expected to build for the blocks
of one converted job line. -/
def blockTasks (jobId : ℕ) : ℕ → List Block → List CTask
  | _, [] => []
  | taskId, ps :: rest =>
    ⟨jobId, taskId, taskId, ps.map (fun p => p.1 - 1), ps.headI.2⟩ ::
      blockTasks jobId (taskId + 1) rest

/-- The job list the csv intake is expected to build for a converted
instance: one `(job id, tasks)` pair per job. -/
def jobsPairs : ℕ → List (List Block) → List (ℕ × List CTask)
  | _, [] => []
  | jobId, tasks :: rest =>
    (jobId, blockTasks jobId 0 tasks) :: jobsPairs (jobId + 1) rest

/-- Data.convert_fjs_to_csv: jobTasks rows as above, a machine-speed file
with speed 1 for each machine (data.py:289-292), and `totalTasks + 1`
zero lines of `totalTasks + 1` entries each (data.py:294-298), of which
the csv intake treats the first as a header. -/
def convert_fjs_to_csv (f : FJSFile) : CSVFiles :=
  { jobTasksRows := convertRows f
    seqDepRows :=
      List.replicate f.totalTasks (List.replicate (f.totalTasks + 1) 0)
    machineSpeedRows := List.replicate f.numMachines 1 }

/-! ### Data.get_setup_time (data.py:140-165) -/

/-- The two lookup tables `Data.get_setup_time` reads. -/
structure DataTables where
  sequence_dependency_matrix : List (List ℤ)
  job_task_index_matrix : List (List ℤ)
deriving DecidableEq

/-- A 2-d numpy integer lookup `mat[i, j]`: a negative index wraps once
from the end of its axis; a still-out-of-range access is given default 0
here (numpy raises IndexError, which no claim exercises). -/
def npGet2 (mat : List (List ℤ)) (i j : ℤ) : ℤ :=
  let r := if i < 0 then i + mat.length else i
  let row := mat.getD r.toNat []
  let c := if j < 0 then j + row.length else j
  row.getD c.toNat 0

/-- Data.get_setup_time: 0 when the minimum of the four ids is negative,
otherwise the dependency matrix entry at the two flat indices. -/
def get_setup_time (d : DataTables) (job1_id job1_task_id job2_id job2_task_id : ℤ) : ℤ :=
  if min (min job1_id job1_task_id) (min job2_id job2_task_id) < 0 then 0
  else
    npGet2 d.sequence_dependency_matrix
      (npGet2 d.job_task_index_matrix job1_id job1_task_id)
      (npGet2 d.job_task_index_matrix job2_id job2_task_id)

/-! ### Task equality (data.py:55-59) -/

/-- The Task ADT fields (data.py:28-38); `usable_machines` as the list of
machine ids its 1-d array holds. -/
structure Task where
  job_id : ℤ
  task_id : ℤ
  sequence : ℤ
  usable_machines : List ℤ
  pieces : ℤ
deriving DecidableEq

/-- Task.__eq__: compares job id, task id, sequence and the usable
machine arrays element-wise (`np.array_equal`); pieces are omitted. -/
def taskEq (a b : Task) : Bool :=
  decide (a.job_id = b.job_id) && decide (a.task_id = b.task_id) &&
  decide (a.sequence = b.sequence) && decide (a.usable_machines = b.usable_machines)

/-! ### Solver coordinator (solver.py _tabu_search)

The Solution class lives in the repository's `solution` module, which is
not part of the sources here; following the spec, a Solution carries a
cached makespan and compares by makespan with the `(machine, job, task)`
fingerprint as tie-break. -/

/-- Modelled from the spec: a Solution as the coordinator sees it — its
cached makespan and its `(machine, job, task)` fingerprint used for
tie-breaking (spec §4.2); the `solution` module is not under src/. -/
structure Sol where
  makespan : ℚ
  fingerprint : List (ℤ × ℤ × ℤ)
deriving DecidableEq

/-- Lexicographic order on fingerprint triples. -/
def tripleLtB (a b : ℤ × ℤ × ℤ) : Bool :=
  decide (a.1 < b.1) ||
  (decide (a.1 = b.1) &&
    (decide (a.2.1 < b.2.1) || (decide (a.2.1 = b.2.1) && decide (a.2.2 < b.2.2))))

/-- Lexicographic order on fingerprints. -/
def lexLtB : List (ℤ × ℤ × ℤ) → List (ℤ × ℤ × ℤ) → Bool
  | [], [] => false
  | [], _ :: _ => true
  | _ :: _, [] => false
  | a :: as, b :: bs => if a = b then lexLtB as bs else tripleLtB a b

/-- Modelled from the spec: `Solution.__lt__` — strictly smaller makespan,
or equal makespan and lexicographically smaller fingerprint (spec §4.2). -/
def solLtB (a b : Sol) : Bool :=
  decide (a.makespan < b.makespan) ||
  (decide (a.makespan = b.makespan) && lexLtB a.fingerprint b.fingerprint)

/-- Python `min(iterable)`: scan left to right, replacing the current
minimum whenever a strictly `<`-smaller element appears. -/
def pyMinAux : Sol → List Sol → Sol
  | m, [] => m
  | m, x :: xs => pyMinAux (if solLtB x m then x else m) xs

/-- `self.ts_best_solution = min(self.ts_all_solutions)` (solver.py:240):
the collected per-worker results are read back for
`tabu_id in range(num_processes)` (solver.py:224-235), so their order is
the worker index order, independent of finishing order; Python `min` on an
empty list raises. -/
def ts_best_solution (sols : List Sol) : Option Sol :=
  match sols with
  | [] => none
  | x :: xs => some (pyMinAux x xs)

/-- The `initial solutions` parameter entry of solver.py:160-163: `W`
fresh solutions when the caller supplied none, otherwise the supplied
list padded with `max(0, W - len(initial))` fresh ones.  `gen i` stands
for the i-th call of `solution.generate_feasible_solution()` (that module
is not under src/). -/
def tsSeedSolutions (initial : Option (List Sol)) (num_processes : ℕ)
    (gen : ℕ → Sol) : List Sol :=
  match initial with
  | none => (List.range num_processes).map gen
  | some l =>
    l ++ (List.range (max 0 ((num_processes : ℤ) - l.length)).toNat).map gen

/-! ### Seed validation (solver.py:144-146 with the spec's Solution) -/

/-- One operation row `(job_id, task_id, sequence, machine)` of a
Solution's operation matrix (spec §3). -/
structure OpRow where
  job : ℕ
  task : ℕ
  seq : ℕ
  machine : ℕ
deriving DecidableEq

/-- The instance data feasibility is checked against: per-job task counts
and per-(job, task) usable machine sets (spec §3). -/
structure SimpleInstance where
  taskCounts : List ℕ
  usableSets : List (List (List ℕ))
deriving DecidableEq

/-- Every `(job, task)` pair the instance requires. -/
def requiredPairs (inst : SimpleInstance) : List (ℕ × ℕ) :=
  (inst.taskCounts.enum.map (fun jc =>
    (List.range jc.2).map (fun k => (jc.1, k)))).flatten

/-- Invariant (1): every required `(job, task)` pair appears exactly once. -/
def inv1B (inst : SimpleInstance) (rows : List OpRow) : Bool :=
  decide (rows.length = (requiredPairs inst).length) &&
  (requiredPairs inst).all (fun p =>
    decide (rows.countP (fun r => decide (r.job = p.1) && decide (r.task = p.2)) = 1))

/-- Invariant (2): within each job, rows appear in ascending sequence. -/
def inv2B : List OpRow → Bool
  | [] => true
  | r :: rs => rs.all (fun x => decide (x.job ≠ r.job) || decide (r.seq ≤ x.seq)) && inv2B rs

/-- Invariant (3): each row's machine is usable for its operation. -/
def inv3B (inst : SimpleInstance) (rows : List OpRow) : Bool :=
  rows.all (fun r => ((inst.usableSets.getD r.job []).getD r.task []).contains r.machine)

/-- Feasibility invariants (1)-(3) of spec §3. -/
def feasibleSolution (inst : SimpleInstance) (rows : List OpRow) : Bool :=
  inv1B inst rows && inv2B rows && inv3B inst rows

/-- Modelled from the spec: a constructed `solution.Solution` — the
missing module's constructor evaluates the operation matrix and fails on
one violating invariants (1)-(3) (spec §7 InvalidSeed /
InternalInvariantViolation), so an instance always carries a feasible
matrix. -/
structure PySolution where
  inst : SimpleInstance
  rows : List OpRow
  feasible : feasibleSolution inst rows = true

/-- Modelled from the spec: constructing a Solution from an operation
matrix; infeasible matrices are rejected. -/
def mkSolution (inst : SimpleInstance) (rows : List OpRow) :
    Except String PySolution :=
  if h : feasibleSolution inst rows = true then Except.ok ⟨inst, rows, h⟩
  else Except.error ("InfeasibleSolutionException")

/-- Build the caller's `initial_solutions` batch from raw operation
matrices: each must construct a Solution. -/
def buildSeedBatch (inst : SimpleInstance) :
    List (List OpRow) → Except String (List PySolution)
  | [] => Except.ok []
  | rows :: rest =>
    match mkSolution inst rows, buildSeedBatch inst rest with
    | Except.ok s, Except.ok ss => Except.ok (s :: ss)
    | Except.error e, _ => Except.error e
    | _, Except.error e => Except.error e

/-- `_tabu_search` entered with caller-supplied seeds: the batch must
consist of Solution instances (the `isinstance` gate of solver.py:145
rejects anything else with TypeError; a raw value that is a Solution can
only exist feasible, per `mkSolution`); only then does the search run. -/
def tabu_search_seeded (inst : SimpleInstance) (arrays : List (List OpRow)) :
    Except String Unit :=
  match buildSeedBatch inst arrays with
  | Except.error e => Except.error e
  | Except.ok _ => Except.ok ()

/-! ### Result extractors for concrete statements -/

/-- Processing-time matrix of a constructed instance, `[]` on error. -/
def procOf (e : Except String JsspData) : List (List ℚ) :=
  match e with
  | Except.ok d => d.task_processing_times_matrix
  | Except.error _ => []

/-- Usable-machine matrix of a constructed instance, `[]` on error. -/
def usableOf (e : Except String JsspData) : List (List ℤ) :=
  match e with
  | Except.ok d => d.usable_machines_matrix
  | Except.error _ => []

/-- Whether construction succeeded. -/
def isOk (e : Except String JsspData) : Bool :=
  match e with
  | Except.ok _ => true
  | Except.error _ => false

/-- Decidable equality on construction results. -/
instance exceptDecEq {ε α : Type} [DecidableEq ε] [DecidableEq α] :
    DecidableEq (Except ε α) := fun a b =>
  match a, b with
  | Except.ok x, Except.ok y =>
    if h : x = y then isTrue (by rw [h])
    else isFalse (fun hh => h (Except.ok.inj hh))
  | Except.error x, Except.error y =>
    if h : x = y then isTrue (by rw [h])
    else isFalse (fun hh => h (Except.error.inj hh))
  | Except.ok _, Except.error _ => isFalse (fun hh => Except.noConfusion hh)
  | Except.error _, Except.ok _ => isFalse (fun hh => Except.noConfusion hh)

/-! ### Concrete inputs used by counterexamples and witnesses -/

/-- An fjs file with one job whose single task runs on machine 1 in 3
minutes and on machine 2 in 5 minutes (line `1  2 1 3 2 5`). -/
def fjsLossy : FJSFile :=
  { numJobs := 1, numMachines := 2, jobLines := [[1, 2, 1, 3, 2, 5]] }

/-- An fjs file whose single task has an empty usable-machine set
(line `1  0`). -/
def fjsEmptyUsable : FJSFile :=
  { numJobs := 1, numMachines := 2, jobLines := [[1, 0]] }

/-- An fjs file whose single task has runtime -5 on its only machine. -/
def fjsNegTime : FJSFile :=
  { numJobs := 1, numMachines := 1, jobLines := [[1, 1, 1, -5]] }

/-- CSV files whose single task has Pieces -3 on its only machine. -/
def csvNegPieces : CSVFiles :=
  { jobTasksRows := [{ job := 0, task := 0, seq := 0, usableTokens := ["0"], pieces := -3 }]
    seqDepRows := [[0, 0]]
    machineSpeedRows := [1] }

/-- CSV files whose single task has usable-machine field `[]`: the token
list of the empty bracket content is `[""]`. -/
def csvEmptyUsable : CSVFiles :=
  { jobTasksRows := [{ job := 0, task := 0, seq := 0, usableTokens := [""], pieces := 3 }]
    seqDepRows := [[0, 0]]
    machineSpeedRows := [1] }

/-- CSV files whose single task lists machines `[0 0 1]` — three tokens,
more than the two machines, with machine 0 duplicated. -/
def csvDupMachines : CSVFiles :=
  { jobTasksRows := [{ job := 0, task := 0, seq := 0, usableTokens := ["0", "0", "1"], pieces := 1 }]
    seqDepRows := [[0, 0]]
    machineSpeedRows := [1, 1] }

/-- A small well-formed structured fjs instance: two machines, job 0 with
one task usable on both machines (times 3 and 3), job 1 with one task on
machine 2 (time 7). -/
def fjsSmall : FJSShape :=
  { numMachines := 2, jobs := [[[(1, 3), (2, 3)]], [[(2, 7)]]] }

/-- CSV files with two machines of speeds 1 and 2 and one task with
Pieces 6 usable on machine 1 only. -/
def csvSmall : CSVFiles :=
  { jobTasksRows := [{ job := 0, task := 0, seq := 0, usableTokens := ["1"], pieces := 6 }]
    seqDepRows := [[0, 0]]
    machineSpeedRows := [1, 2] }

/-! ## Theorems -/

/-! ### Decimal round trip -/

/-- Rendering a digit and parsing it back is the identity. -/
theorem charDigit_digitChar (d : ℕ) (h : d < 10) :
    charDigit? (digitChar d) = some d := by
  interval_cases d <;> decide

/-- No digit renders as the minus sign. -/
theorem digitChar_ne_dash (d : ℕ) : digitChar d ≠ '-' := by
  unfold digitChar
  split_ifs <;> decide

/-- Parsing the rendering of a digit list succeeds. -/
theorem parseDigits_map_digitChar (l : List ℕ) (h : ∀ d ∈ l, d < 10) :
    parseDigits (l.map digitChar) = some l := by
  induction l with
  | nil => rfl
  | cons a t ih =>
    have ha := charDigit_digitChar a (h a (List.mem_cons_self a t))
    have ht := ih (fun d hd => h d (List.mem_cons_of_mem _ hd))
    simp [parseDigits, ha, ht]

/-- The fuel-driven digit expansion is correct and produces digits. -/
theorem natDigitsAux_spec (fuel : ℕ) :
    ∀ n : ℕ, n ≤ fuel →
      Nat.ofDigits 10 (natDigitsAux fuel n) = n ∧
      ∀ d ∈ natDigitsAux fuel n, d < 10 := by
  induction fuel with
  | zero =>
    intro n hn
    have : n = 0 := Nat.le_zero.mp hn
    subst this
    exact ⟨by simp [natDigitsAux, Nat.ofDigits], by simp [natDigitsAux]⟩
  | succ fuel ih =>
    intro n hn
    cases n with
    | zero => exact ⟨by simp [natDigitsAux, Nat.ofDigits], by simp [natDigitsAux]⟩
    | succ n =>
      have hdiv : (n + 1) / 10 ≤ fuel := by
        have := Nat.div_lt_self (Nat.succ_pos n) (by norm_num : 1 < 10)
        omega
      obtain ⟨h1, h2⟩ := ih ((n + 1) / 10) hdiv
      constructor
      · show Nat.ofDigits 10 ((n + 1) % 10 :: natDigitsAux fuel ((n + 1) / 10)) = n + 1
        rw [Nat.ofDigits_cons, h1]
        omega
      · intro d hd
        show d < 10
        rcases List.mem_cons.mp hd with hd | hd
        · omega
        · exact h2 d hd

/-- The digit list of a positive number is non-empty. -/
theorem natDigits_ne_nil (n : ℕ) (h : n ≠ 0) : natDigits n ≠ [] := by
  cases n with
  | zero => exact absurd rfl h
  | succ n => simp [natDigits, natDigitsAux]

/-- Parsing the decimal rendering of a natural number returns it. -/
theorem strToNatChars_natReprChars (n : ℕ) :
    strToNatChars (natReprChars n) = some n := by
  by_cases h : n = 0
  · subst h; decide
  · obtain ⟨h1, h2⟩ := natDigitsAux_spec n n (le_refl n)
    have hnil := natDigits_ne_nil n h
    unfold natReprChars
    rw [if_neg h]
    unfold strToNatChars
    rw [if_neg (by
      simp only [List.isEmpty_iff, List.reverse_eq_nil_iff, List.map_eq_nil_iff]
      exact hnil)]
    have h2r : ∀ d ∈ (natDigits n).reverse, d < 10 :=
      fun d hd => h2 d (List.mem_reverse.mp hd)
    have h1n : Nat.ofDigits 10 (natDigits n) = n := h1
    rw [← List.map_reverse]
    rw [parseDigits_map_digitChar _ h2r]
    simp only [Option.map_some']
    rw [List.reverse_reverse]
    exact congrArg some h1n

/-- No character of a rendered natural number is the minus sign. -/
theorem natReprChars_ne_dash (n : ℕ) : ∀ c ∈ natReprChars n, c ≠ '-' := by
  unfold natReprChars
  split_ifs
  · intro c hc
    rw [List.mem_singleton.mp hc]
    decide
  · intro c hc
    rw [List.mem_reverse] at hc
    obtain ⟨d, _, rfl⟩ := List.mem_map.mp hc
    exact digitChar_ne_dash d

/-- The rendered characters of a natural number are non-empty. -/
theorem natReprChars_ne_nil (n : ℕ) : natReprChars n ≠ [] := by
  unfold natReprChars
  split_ifs with h
  · simp
  · simp [natDigits_ne_nil n h]

/-- Python `int(str(z)) = z`: parsing the rendering of an integer. -/
theorem strToInt_intRepr (z : ℤ) : strToInt? (intRepr z) = some z := by
  by_cases hz : z < 0
  · unfold intRepr
    rw [if_pos hz]
    have : strToInt? (String.mk ('-' :: natReprChars (-z).toNat)) =
        (strToNatChars (natReprChars (-z).toNat)).map (fun n => -(n : ℤ)) := rfl
    rw [this, strToNatChars_natReprChars]
    show some (-(((-z).toNat : ℕ) : ℤ)) = some z
    congr 1
    omega
  · unfold intRepr
    rw [if_neg hz]
    rcases hcons : natReprChars z.toNat with _ | ⟨c, t⟩
    · exact absurd hcons (natReprChars_ne_nil _)
    · have hc : c ≠ '-' := natReprChars_ne_dash z.toNat c (by rw [hcons]; exact List.mem_cons_self _ _)
      have : strToInt? (String.mk (c :: t)) =
          if c = '-' then (strToNatChars t).map (fun n => -(n : ℤ))
          else (strToNatChars (c :: t)).map (fun n => (n : ℤ)) := rfl
      rw [this, if_neg hc, ← hcons, strToNatChars_natReprChars]
      show some ((z.toNat : ℕ) : ℤ) = some z
      congr 1
      omega

/-- Parsing the token list rendered from an integer list returns it. -/
theorem parseIntList_map_intRepr (l : List ℤ) :
    parseIntList (l.map intRepr) = some l := by
  induction l with
  | nil => rfl
  | cons a t ih => simp [parseIntList, strToInt_intRepr, ih]

/-! ### List write/read lemmas -/

/-- Reading back a written position. -/
theorem getD_set_self {α : Type} (l : List α) (i : ℕ) (v d : α)
    (h : i < l.length) : (l.set i v).getD i d = v := by
  induction l generalizing i with
  | nil => simp at h
  | cons a t ih =>
    cases i with
    | zero => rfl
    | succ i =>
      simp only [List.set_cons_succ, List.getD_cons_succ]
      exact ih i (by simpa using h)

/-- A write elsewhere does not change a read. -/
theorem getD_set_ne {α : Type} (l : List α) (i j : ℕ) (v d : α)
    (h : i ≠ j) : (l.set i v).getD j d = l.getD j d := by
  induction l generalizing i j with
  | nil => simp [List.set]
  | cons a t ih =>
    cases i with
    | zero =>
      cases j with
      | zero => exact absurd rfl h
      | succ j => rfl
    | succ i =>
      cases j with
      | zero => rfl
      | succ j =>
        simp only [List.set_cons_succ, List.getD_cons_succ]
        exact ih i j (fun hij => h (by rw [hij]))

/-- A fold of indexed writes preserves the row length. -/
theorem foldl_set_length {α β : Type} (l : List α) (f : α → ℕ) (v : α → β)
    (init : List β) :
    (l.foldl (fun row a => row.set (f a) (v a)) init).length = init.length := by
  induction l generalizing init with
  | nil => rfl
  | cons a t ih =>
    rw [List.foldl_cons, ih]
    exact List.length_set ..

/-- A fold of indexed writes leaves untouched positions alone. -/
theorem foldl_set_getD_not_mem {α β : Type} (l : List α) (f : α → ℕ)
    (v : α → β) (init : List β) (j : ℕ) (d : β)
    (h : ∀ a ∈ l, f a ≠ j) :
    (l.foldl (fun row a => row.set (f a) (v a)) init).getD j d =
      init.getD j d := by
  induction l generalizing init with
  | nil => rfl
  | cons a t ih =>
    rw [List.foldl_cons, ih _ (fun x hx => h x (List.mem_cons_of_mem _ hx))]
    exact getD_set_ne _ _ _ _ _ (h a (List.mem_cons_self a t))

/-- A fold of indexed writes stores the common written value at a
position that is written at least once, all of whose writes agree. -/
theorem foldl_set_getD_mem {α β : Type} (l : List α) (f : α → ℕ)
    (v : α → β) (init : List β) (j : ℕ) (d : β) (c : β)
    (hj : j < init.length)
    (hex : ∃ a ∈ l, f a = j)
    (hval : ∀ a ∈ l, f a = j → v a = c) :
    (l.foldl (fun row a => row.set (f a) (v a)) init).getD j d = c := by
  induction l generalizing init with
  | nil => simp at hex
  | cons a t ih =>
    rw [List.foldl_cons]
    by_cases ht : ∃ x ∈ t, f x = j
    · exact ih (init.set (f a) (v a))
        (by rw [List.length_set]; exact hj) ht
        (fun x hx => hval x (List.mem_cons_of_mem _ hx))
    · push_neg at ht
      obtain ⟨x, hx, hfx⟩ := hex
      have hfa : f a = j := by
        rcases List.mem_cons.mp hx with h1 | h1
        · rw [← h1]; exact hfx
        · exact absurd hfx (ht x h1)
      rw [foldl_set_getD_not_mem t f v _ j d ht]
      rw [hfa]
      rw [getD_set_self init j (v a) d hj]
      exact hval a (List.mem_cons_self a t) hfa

/-- Every member's value bounds a `max` fold from below. -/
theorem foldl_max_spec {α : Type} (l : List α) (g : α → ℕ) (init : ℕ) :
    (∀ x ∈ l, g x ≤ l.foldl (fun a y => max (g y) a) init) ∧
    init ≤ l.foldl (fun a y => max (g y) a) init := by
  induction l generalizing init with
  | nil => exact ⟨by simp, le_refl _⟩
  | cons a t ih =>
    obtain ⟨h1, h2⟩ := ih (max (g a) init)
    refine ⟨?_, le_trans (le_max_right _ _) h2⟩
    intro x hx
    rcases List.mem_cons.mp hx with h | h
    · subst h
      exact le_trans (le_max_left _ _) h2
    · exact h1 x h

/-- Reading a replicated list inside its range. -/
theorem getD_replicate {α : Type} (n i : ℕ) (x d : α) (h : i < n) :
    (List.replicate n x).getD i d = x := by
  induction n generalizing i with
  | zero => omega
  | succ n ih =>
    cases i with
    | zero => rfl
    | succ i => exact ih i (by omega)

/-- Reading a mapped list inside its range. -/
theorem getD_map_lt {α β : Type} (l : List α) (g : α → β) (t : ℕ) (d : β)
    (d2 : α) (h : t < l.length) :
    (l.map g).getD t d = g (l.getD t d2) := by
  induction l generalizing t with
  | nil => simp at h
  | cons a r ih =>
    cases t with
    | zero => rfl
    | succ t => exact ih t (by simpa using h)

/-- `np.resize` always produces the requested length. -/
theorem npResize_length (l : List ℤ) (m : ℕ) : (npResize l m).length = m := by
  unfold npResize
  split <;> simp

/-- `np.resize` of a non-empty list cycles through it. -/
theorem npResize_getD (l : List ℤ) (m i : ℕ) (hl : l ≠ []) (hi : i < m) :
    (npResize l m).getD i 0 = l.getD (i % l.length) 0 := by
  unfold npResize
  rw [if_neg (by simpa using hl)]
  rw [getD_map_lt (List.range m) (fun j => l.getD (j % l.length) 0) i 0 0
    (by simpa using hi)]
  have hr : (List.range m).getD i 0 = i := by
    rw [List.getD_eq_getElem (List.range m) 0 (by simpa using hi)]
    simp
  simp only [hr]

/-- The values occurring in a cyclic resize of a non-empty list that fits
the target length are exactly the values of the list. -/
theorem npResize_mem (l : List ℤ) (m : ℕ) (hl : l ≠ []) (hlen : l.length ≤ m)
    (v : ℤ) : v ∈ npResize l m ↔ v ∈ l := by
  have hpos : 0 < l.length := List.length_pos.mpr hl
  unfold npResize
  rw [if_neg (by simpa using hl)]
  constructor
  · intro hv
    obtain ⟨i, _, rfl⟩ := List.mem_map.mp hv
    have hmod : i % l.length < l.length := Nat.mod_lt _ hpos
    rw [List.getD_eq_getElem l 0 hmod]
    exact List.getElem_mem _
  · intro hv
    obtain ⟨j, hj, hval⟩ := List.mem_iff_getElem.mp hv
    refine List.mem_map.mpr ⟨j, List.mem_range.mpr (lt_of_lt_of_le hj hlen), ?_⟩
    rw [Nat.mod_eq_of_lt hj, List.getD_eq_getElem l 0 hj]
    exact hval

/-! ### Flat fjs encoding inverts the block parser -/

/-- Pairing up a flattened pair list recovers it. -/
theorem pairUp_encode (ps : Block) :
    pairUp ((ps.map (fun p => [p.1, p.2])).flatten) = ps := by
  induction ps with
  | nil => rfl
  | cons a t ih => simp [pairUp, ih]

/-- A flattened pair list has twice the pairs' length. -/
theorem flat_pairs_length (ps : Block) :
    ((ps.map (fun p => [p.1, p.2])).flatten).length = 2 * ps.length := by
  induction ps with
  | nil => rfl
  | cons a t ih => simp [ih]; omega

/-- The while-loop parser inverts the flat block encoding. -/
theorem taskBlocksAux_encode (tasks : List Block) :
    ∀ fuel : ℕ, ((tasks.map encodeBlock).flatten).length ≤ fuel →
      taskBlocksAux fuel ((tasks.map encodeBlock).flatten) = tasks := by
  induction tasks with
  | nil =>
    intro fuel _
    cases fuel <;> rfl
  | cons ps rest ih =>
    intro fuel h
    have hflat := flat_pairs_length ps
    cases fuel with
    | zero => simp [encodeBlock] at h
    | succ fuel =>
      have htalen : ((ps.length : ℤ)).toNat = ps.length := by omega
      show pairUp (((ps.map (fun p => [p.1, p.2])).flatten ++
          (rest.map encodeBlock).flatten).take
            (2 * ((ps.length : ℤ)).toNat)) ::
        taskBlocksAux fuel (((ps.map (fun p => [p.1, p.2])).flatten ++
          (rest.map encodeBlock).flatten).drop (2 * ((ps.length : ℤ)).toNat)) =
        ps :: rest
      rw [htalen]
      rw [List.take_left' (by rw [hflat]), List.drop_left' (by rw [hflat])]
      rw [pairUp_encode]
      congr 1
      apply ih
      have hlen2 : (encodeBlock ps).length = 2 * ps.length + 1 := by
        simp [encodeBlock, hflat]
      simp only [List.map_cons, List.flatten_cons, List.length_append, hlen2] at h
      omega

/-- Parsing one encoded job line yields its blocks. -/
theorem taskBlocks_encodeLine (tasks : List Block) :
    taskBlocks ((encodeLine tasks).tail) = tasks := by
  show taskBlocksAux ((tasks.map encodeBlock).flatten).length
    ((tasks.map encodeBlock).flatten) = tasks
  exact taskBlocksAux_encode tasks _ (le_refl _)

/-- The tasks the fjs intake enumerates on an encoded instance are
exactly the instance's blocks, in order. -/
theorem fjsTasksAll_encode (s : FJSShape) :
    fjsTasksAll (encodeFJS s) = fjsBlocks s := by
  unfold fjsTasksAll encodeFJS fjsBlocks
  simp only [List.map_map]
  have h : s.jobs.map ((fun l => taskBlocks l.tail) ∘ encodeLine) = s.jobs := by
    conv_rhs => rw [← List.map_id s.jobs]
    apply List.map_congr_left
    intro j _
    exact taskBlocks_encodeLine j
  rw [h]

/-- The declared task total of an encoded instance is its block count. -/
theorem totalTasks_encode (s : FJSShape) :
    (encodeFJS s).totalTasks = (fjsBlocks s).length := by
  show ((s.jobs.map encodeLine).map (fun l => l.headI.toNat)).sum =
    s.jobs.flatten.length
  rw [List.map_map, List.length_flatten]
  have h : s.jobs.map ((fun l => l.headI.toNat) ∘ encodeLine) =
      s.jobs.map List.length := by
    apply List.map_congr_left
    intro j _
    show ((encodeLine j).headI).toNat = j.length
    simp [encodeLine]
  rw [h]

/-- Each job's task count is bounded by the declared maximum. -/
theorem length_le_maxTasks_encode (s : FJSShape) (job : List Block)
    (hj : job ∈ s.jobs) : job.length ≤ (encodeFJS s).maxTasks := by
  unfold FJSFile.maxTasks encodeFJS
  have hmem : encodeLine job ∈ s.jobs.map encodeLine :=
    List.mem_map_of_mem _ hj
  have h := (foldl_max_spec (s.jobs.map encodeLine)
    (fun l => l.headI.toNat) 0).1 _ hmem
  simpa [encodeLine] using h

/-- An element read by `getD` inside the range is a member. -/
theorem getD_mem {α : Type} (l : List α) (t : ℕ) (d : α) (h : t < l.length) :
    l.getD t d ∈ l := by
  rw [List.getD_eq_getElem l d h]
  exact List.getElem_mem _

/-- Members of a list with an injective image list are determined by
their image. -/
theorem nodup_map_inj {α β : Type} (l : List α) (f : α → β)
    (h : (l.map f).Nodup) (p q : α) (hp : p ∈ l) (hq : q ∈ l)
    (hf : f p = f q) : p = q := by
  induction l with
  | nil => simp at hp
  | cons a t ih =>
    rw [List.map_cons, List.nodup_cons] at h
    rcases List.mem_cons.mp hp with h1 | h1 <;>
      rcases List.mem_cons.mp hq with h2 | h2
    · rw [h1, h2]
    · exfalso
      apply h.1
      rw [h1] at hf
      rw [hf]
      exact List.mem_map_of_mem f h2
    · exfalso
      apply h.1
      rw [h2] at hf
      rw [← hf]
      exact List.mem_map_of_mem f h1
    · exact ih h.2 h1 h2

/-- The construction of `FJSData` on a well-formed encoded instance
raises no numpy IndexError. -/
theorem fjsOk_encode (s : FJSShape) (hwf : FJSWellFormed s) :
    fjsOk (encodeFJS s) = true := by
  obtain ⟨_, hj⟩ := hwf
  unfold fjsOk
  rw [fjsTasksAll_encode, totalTasks_encode]
  simp only [Bool.and_eq_true, decide_eq_true_eq, List.all_eq_true]
  refine ⟨⟨⟨le_refl _, ?_⟩, ?_⟩, ?_⟩
  · show (encodeFJS s).jobLines.length ≤ (encodeFJS s).numJobs
    simp [encodeFJS]
  · intro l hl
    have hl2 : l ∈ s.jobs.map encodeLine := hl
    obtain ⟨job, hjob, rfl⟩ := List.mem_map.mp hl2
    show (taskBlocks (encodeLine job).tail).length ≤ (encodeFJS s).maxTasks
    rw [taskBlocks_encodeLine]
    exact length_le_maxTasks_encode s job hjob
  · intro ps hps p hp
    obtain ⟨job, hjob, hps2⟩ := List.mem_flatten.mp hps
    obtain ⟨_, h2⟩ := hj job hjob
    obtain ⟨_, h3⟩ := h2 ps hps2
    obtain ⟨h4, h5⟩ := h3 p hp
    exact ⟨h4, h5⟩

/-! ### Claim C6 -/

/-- Claim C6: the fjs intake stores machines zero-indexed — each machine
id of a task block is decremented before being recorded in
`usable_machines_matrix`, and the decremented id is the column at which
the block's runtime is stored in `task_processing_times_matrix` — and it
leaves `sequence_dependency_matrix` the all-zero T-by-T matrix.  The
construction itself raises no error on well-formed input. -/
theorem C6_fjs_machine_zero_indexing (s : FJSShape) (hwf : FJSWellFormed s)
    (hnd : ∀ job ∈ s.jobs, ∀ ps ∈ job, (ps.map (fun p => p.1)).Nodup) :
    fjsOk (encodeFJS s) = true ∧
    (FJSData (encodeFJS s)).sequence_dependency_matrix =
      List.replicate (fjsBlocks s).length
        (List.replicate (fjsBlocks s).length 0) ∧
    (∀ a b : ℕ, a < (FJSData (encodeFJS s)).total_number_of_tasks →
      b < (FJSData (encodeFJS s)).total_number_of_tasks →
      ((FJSData (encodeFJS s)).sequence_dependency_matrix.getD a []).getD b 7 = 0) ∧
    (FJSData (encodeFJS s)).usable_machines_matrix =
      (fjsBlocks s).map (fun ps =>
        npResize (ps.map (fun p => p.1 - 1)) s.numMachines) ∧
    ∀ t : ℕ, t < (fjsBlocks s).length →
      ∀ p ∈ (fjsBlocks s).getD t [],
        ((FJSData (encodeFJS s)).task_processing_times_matrix.getD t []).getD
          (p.1 - 1).toNat 0 = (p.2 : ℚ) := by
  obtain ⟨hjobs, hwfj⟩ := hwf
  have hseq : (FJSData (encodeFJS s)).sequence_dependency_matrix =
      List.replicate (fjsBlocks s).length
        (List.replicate (fjsBlocks s).length 0) := by
    show List.replicate (encodeFJS s).totalTasks
        (List.replicate (encodeFJS s).totalTasks 0) = _
    rw [totalTasks_encode]
  have htot : (FJSData (encodeFJS s)).total_number_of_tasks =
      (fjsBlocks s).length := totalTasks_encode s
  refine ⟨fjsOk_encode s ⟨hjobs, hwfj⟩, hseq, ?_, ?_, ?_⟩
  · intro a b ha hb
    rw [htot] at ha hb
    rw [hseq, getD_replicate _ _ _ _ ha, getD_replicate _ _ _ _ hb]
  · show (fjsTasksAll (encodeFJS s)).map
        (fun ps => npResize (ps.map (fun p => p.1 - 1)) (encodeFJS s).numMachines) = _
    rw [fjsTasksAll_encode]
    rfl
  · intro t ht p hp
    have hpr049 : (FJSData (encodeFJS s)).task_processing_times_matrix =
        (fjsBlocks s).map (fjsProcRow s.numMachines) := by
      show (fjsTasksAll (encodeFJS s)).map (fjsProcRow (encodeFJS s).numMachines) = _
      rw [fjsTasksAll_encode]
      rfl
    rw [hpr049, getD_map_lt (fjsBlocks s) _ t [] [] ht]
    have hmem : (fjsBlocks s).getD t [] ∈ fjsBlocks s := getD_mem _ t [] ht
    obtain ⟨job, hjob, hps2⟩ := List.mem_flatten.mp hmem
    obtain ⟨_, h2⟩ := hwfj job hjob
    obtain ⟨_, h3⟩ := h2 _ hps2
    obtain ⟨hp1, hp2⟩ := h3 p hp
    have hnd2 := hnd job hjob _ hps2
    unfold fjsProcRow
    apply foldl_set_getD_mem
    · rw [List.length_replicate]
      omega
    · exact ⟨p, hp, rfl⟩
    · intro q hq hfq
      obtain ⟨hq1, _⟩ := h3 q hq
      have : q.1 = p.1 := by omega
      have : q = p := nodup_map_inj _ (fun p => p.1) hnd2 q p hq hp this
      rw [this]

/-- Witness for C6 at a concrete two-job instance. -/
theorem C6_witness :
    FJSWellFormed fjsSmall ∧
    (∀ job ∈ fjsSmall.jobs, ∀ ps ∈ job, (ps.map (fun p => p.1)).Nodup) ∧
    (fjsOk (encodeFJS fjsSmall) = true ∧
      (FJSData (encodeFJS fjsSmall)).sequence_dependency_matrix =
        List.replicate (fjsBlocks fjsSmall).length
          (List.replicate (fjsBlocks fjsSmall).length 0) ∧
      (∀ a b : ℕ, a < (FJSData (encodeFJS fjsSmall)).total_number_of_tasks →
        b < (FJSData (encodeFJS fjsSmall)).total_number_of_tasks →
        ((FJSData (encodeFJS fjsSmall)).sequence_dependency_matrix.getD a []).getD b 7 = 0) ∧
      (FJSData (encodeFJS fjsSmall)).usable_machines_matrix =
        (fjsBlocks fjsSmall).map (fun ps =>
          npResize (ps.map (fun p => p.1 - 1)) fjsSmall.numMachines) ∧
      ∀ t : ℕ, t < (fjsBlocks fjsSmall).length →
        ∀ p ∈ (fjsBlocks fjsSmall).getD t [],
          ((FJSData (encodeFJS fjsSmall)).task_processing_times_matrix.getD t []).getD
            (p.1 - 1).toNat 0 = (p.2 : ℚ)) :=
  ⟨by decide, by decide,
    C6_fjs_machine_zero_indexing fjsSmall (by decide) (by decide)⟩

/-! ### CSVData construction lemmas -/

/-- A successful CSVData construction, introduction form. -/
theorem CSVData_eq_ok (files : CSVFiles) (jobs : List (ℕ × List CTask))
    (hjobs : readJobTasks files.jobTasksRows = Except.ok jobs)
    (hne : jobs ≠ [])
    (hchk : csvChecks jobs files.seqDepRows.length
      files.machineSpeedRows.length = true) :
    CSVData files = Except.ok (csvRecord files jobs) := by
  simp only [CSVData, hjobs]
  rw [if_neg (by simp [List.isEmpty_iff, hne]), if_pos hchk]

/-- A successful CSVData construction, elimination form. -/
theorem CSVData_ok_elim (files : CSVFiles) (d : JsspData)
    (hok : CSVData files = Except.ok d) :
    ∃ jobs, readJobTasks files.jobTasksRows = Except.ok jobs ∧ jobs ≠ [] ∧
      csvChecks jobs files.seqDepRows.length
        files.machineSpeedRows.length = true ∧
      d = csvRecord files jobs := by
  unfold CSVData at hok
  split at hok
  · simp at hok
  · rename_i jobs hread
    split at hok
    · simp at hok
    · rename_i hne
      split at hok
      · rename_i hchk
        refine ⟨jobs, hread, ?_, hchk, (Except.ok.inj hok).symm⟩
        intro h
        rw [h] at hne
        simp at hne
      · simp at hok

/-! ### Claim C10 -/

/-- Claim C10 (counterexample to the set-equality part as universally
stated): the csv task listing machines `[0 0 1]` with two machines
constructs successfully, but its usable row is `[0, 0]` — np.resize
truncates the three-entry list to the two columns — so machine 1 is in
the usable list yet absent from the row. -/
theorem C10_counterexample :
    isOk (CSVData csvDupMachines) = true ∧
    usableOf (CSVData csvDupMachines) = [[0, 0]] ∧
    (1 : ℤ) ∈ ([0, 0, 1] : List ℤ) ∧ ¬ (1 : ℤ) ∈ ([0, 0] : List ℤ) := by
  decide

/-- Claim C10 as amended: for both intakes, the usable row of an
operation with non-empty usable list has `total_number_of_machines`
entries and cycles through the usable list (so ids may repeat); when the
usable list has at most `total_number_of_machines` entries — in
particular whenever its ids are distinct — the set of values in the row
is exactly the set of listed usable machines. -/
theorem C10_usable_rows :
    (∀ (s : FJSShape) (t : ℕ), t < (fjsBlocks s).length →
      ((fjsBlocks s).getD t []).map (fun p => p.1 - 1) ≠ [] →
      ((FJSData (encodeFJS s)).usable_machines_matrix.getD t []).length =
        s.numMachines ∧
      (∀ i : ℕ, i < s.numMachines →
        ((FJSData (encodeFJS s)).usable_machines_matrix.getD t []).getD i 0 =
          (((fjsBlocks s).getD t []).map (fun p => p.1 - 1)).getD
            (i % (((fjsBlocks s).getD t []).map (fun p => p.1 - 1)).length) 0) ∧
      ((((fjsBlocks s).getD t []).map (fun p => p.1 - 1)).length ≤ s.numMachines →
        ∀ v : ℤ, v ∈ (FJSData (encodeFJS s)).usable_machines_matrix.getD t [] ↔
          v ∈ (((fjsBlocks s).getD t []).map (fun p => p.1 - 1)))) ∧
    (∀ (files : CSVFiles) (jobs : List (ℕ × List CTask)) (d : JsspData)
        (t : ℕ),
      readJobTasks files.jobTasksRows = Except.ok jobs →
      CSVData files = Except.ok d →
      t < (csvTasks jobs).length →
      ((csvTasks jobs).getD t default).usable ≠ [] →
      (d.usable_machines_matrix.getD t []).length =
        files.machineSpeedRows.length ∧
      (∀ i : ℕ, i < files.machineSpeedRows.length →
        (d.usable_machines_matrix.getD t []).getD i 0 =
          ((csvTasks jobs).getD t default).usable.getD
            (i % ((csvTasks jobs).getD t default).usable.length) 0) ∧
      (((csvTasks jobs).getD t default).usable.length ≤
          files.machineSpeedRows.length →
        ∀ v : ℤ, v ∈ d.usable_machines_matrix.getD t [] ↔
          v ∈ ((csvTasks jobs).getD t default).usable)) := by
  constructor
  · intro s t ht hne
    have hmat : (FJSData (encodeFJS s)).usable_machines_matrix =
        (fjsBlocks s).map (fun ps =>
          npResize (ps.map (fun p => p.1 - 1)) s.numMachines) := by
      show (fjsTasksAll (encodeFJS s)).map
          (fun ps => npResize (ps.map (fun p => p.1 - 1)) (encodeFJS s).numMachines) = _
      rw [fjsTasksAll_encode]
      rfl
    rw [hmat, getD_map_lt (fjsBlocks s) _ t [] [] ht]
    exact ⟨npResize_length _ _,
      fun i hi => npResize_getD _ _ i hne hi,
      fun hlen v => npResize_mem _ _ hne hlen v⟩
  · intro files jobs d t hjobs hok ht hne
    obtain ⟨jobs2, hread2, _, _, hd⟩ := CSVData_ok_elim files d hok
    rw [hjobs] at hread2
    have hj2 : jobs2 = jobs := (Except.ok.inj hread2).symm
    subst hj2
    subst hd
    have hmat : (csvRecord files jobs2).usable_machines_matrix =
        (csvTasks jobs2).map (fun tk =>
          npResize tk.usable files.machineSpeedRows.length) := rfl
    rw [hmat, getD_map_lt (csvTasks jobs2) _ t [] default ht]
    exact ⟨npResize_length _ _,
      fun i hi => npResize_getD _ _ i hne hi,
      fun hlen v => npResize_mem _ _ hne hlen v⟩

/-- Witness for C10 at a concrete fjs instance and concrete csv files. -/
theorem C10_witness :
    ((0 : ℕ) < (fjsBlocks fjsSmall).length ∧
      ((fjsBlocks fjsSmall).getD 0 []).map (fun p => p.1 - 1) ≠ [] ∧
      ((FJSData (encodeFJS fjsSmall)).usable_machines_matrix.getD 0 []).length =
        fjsSmall.numMachines ∧
      (∀ v : ℤ, v ∈ (FJSData (encodeFJS fjsSmall)).usable_machines_matrix.getD 0 [] ↔
        v ∈ (((fjsBlocks fjsSmall).getD 0 []).map (fun p => p.1 - 1)))) ∧
    (readJobTasks csvSmall.jobTasksRows = Except.ok [(0, [⟨0, 0, 0, [1], 6⟩])] ∧
      (0 : ℕ) < (csvTasks [(0, [⟨0, 0, 0, [1], 6⟩])]).length ∧
      ∃ d, CSVData csvSmall = Except.ok d ∧
        (d.usable_machines_matrix.getD 0 []).length =
          csvSmall.machineSpeedRows.length ∧
        ∀ i : ℕ, i < csvSmall.machineSpeedRows.length →
          (d.usable_machines_matrix.getD 0 []).getD i 0 =
            ((csvTasks [(0, [⟨0, 0, 0, [1], 6⟩])]).getD 0 default).usable.getD
              (i % ((csvTasks [(0, [⟨0, 0, 0, [1], 6⟩])]).getD 0 default).usable.length) 0) := by
  constructor
  · have h := C10_usable_rows.1 fjsSmall 0 (by decide) (by decide)
    exact ⟨by decide, by decide, h.1, h.2.2 (by decide)⟩
  · have hread : readJobTasks csvSmall.jobTasksRows =
        Except.ok [(0, [⟨0, 0, 0, [1], 6⟩])] := by decide
    have hok : CSVData csvSmall =
        Except.ok (csvRecord csvSmall [(0, [⟨0, 0, 0, [1], 6⟩])]) :=
      CSVData_eq_ok csvSmall [(0, [⟨0, 0, 0, [1], 6⟩])]
        (by decide) (by decide) (by decide)
    have h := C10_usable_rows.2 csvSmall [(0, [⟨0, 0, 0, [1], 6⟩])]
      (csvRecord csvSmall [(0, [⟨0, 0, 0, [1], 6⟩])]) 0 hread hok
      (by decide) (by decide)
    exact ⟨hread, by decide,
      ⟨csvRecord csvSmall [(0, [⟨0, 0, 0, [1], 6⟩])], hok, h.1, h.2.1⟩⟩

/-! ### Claim C2 -/

/-- Claim C2: in a CSVData instance built from well-formed csv files
(non-empty usable lists, non-negative Pieces, positive speeds, machine
ids in range), the processing time of operation `t` on machine `m` is
`Pieces / machine_speeds[m]` when `m` is in the usable list of `t` and
the sentinel -1 otherwise; hence the entry is non-negative exactly on the
usable machines. -/
theorem C2_csv_proc_times (files : CSVFiles) (jobs : List (ℕ × List CTask))
    (d : JsspData)
    (hjobs : readJobTasks files.jobTasksRows = Except.ok jobs)
    (hok : CSVData files = Except.ok d)
    (hwf : ∀ tk ∈ csvTasks jobs, tk.usable ≠ [] ∧ 0 ≤ tk.pieces ∧
      ∀ mi ∈ tk.usable, 0 ≤ mi ∧ mi < (files.machineSpeedRows.length : ℤ))
    (hsp : ∀ x ∈ files.machineSpeedRows, 0 < x)
    (t : ℕ) (ht : t < (csvTasks jobs).length) (m : ℕ)
    (hm : m < files.machineSpeedRows.length) :
    ((d.task_processing_times_matrix.getD t []).getD m 0 =
      if (m : ℤ) ∈ ((csvTasks jobs).getD t default).usable
      then (((csvTasks jobs).getD t default).pieces : ℚ) /
        d.machine_speeds.getD m 0
      else -1) ∧
    (0 ≤ (d.task_processing_times_matrix.getD t []).getD m 0 ↔
      (m : ℤ) ∈ ((csvTasks jobs).getD t default).usable) := by
  obtain ⟨jobs2, hread2, _, _, hd⟩ := CSVData_ok_elim files d hok
  rw [hjobs] at hread2
  have hj2 : jobs2 = jobs := (Except.ok.inj hread2).symm
  subst hj2
  subst hd
  have hrow : (csvRecord files jobs2).task_processing_times_matrix.getD t [] =
      csvProcRow files.machineSpeedRows.length
        (floatArray files.machineSpeedRows)
        ((csvTasks jobs2).getD t default) := by
    show ((csvTasks jobs2).map (csvProcRow files.machineSpeedRows.length
      (floatArray files.machineSpeedRows))).getD t [] = _
    exact getD_map_lt _ _ t [] default ht
  have hspd : (csvRecord files jobs2).machine_speeds.getD m 0 =
      ((files.machineSpeedRows.getD m 0 : ℤ) : ℚ) := by
    show ((floatArray files.machineSpeedRows).getD m 0) = _
    unfold floatArray
    exact getD_map_lt _ _ m 0 0 hm
  have hspd_pos : (0 : ℚ) < (csvRecord files jobs2).machine_speeds.getD m 0 := by
    rw [hspd]
    exact_mod_cast hsp _ (getD_mem files.machineSpeedRows m 0 hm)
  obtain ⟨_, hpieces, hmach⟩ :=
    hwf _ (getD_mem (csvTasks jobs2) t default ht)
  rw [hrow]
  by_cases hmem : (m : ℤ) ∈ ((csvTasks jobs2).getD t default).usable
  · have hval : (csvProcRow files.machineSpeedRows.length
        (floatArray files.machineSpeedRows)
        ((csvTasks jobs2).getD t default)).getD m 0 =
        (((csvTasks jobs2).getD t default).pieces : ℚ) /
          (csvRecord files jobs2).machine_speeds.getD m 0 := by
      unfold csvProcRow
      apply foldl_set_getD_mem
      · rw [List.length_replicate]
        exact hm
      · exact ⟨(m : ℤ), hmem, by simp⟩
      · intro a ha hfa
        have h0 : 0 ≤ a := (hmach a ha).1
        have : a = (m : ℤ) := by omega
        rw [this]
        rfl
    rw [hval, if_pos hmem]
    refine ⟨rfl, ⟨fun _ => hmem, fun _ => ?_⟩⟩
    apply div_nonneg
    · exact_mod_cast hpieces
    · exact le_of_lt hspd_pos
  · have hval : (csvProcRow files.machineSpeedRows.length
        (floatArray files.machineSpeedRows)
        ((csvTasks jobs2).getD t default)).getD m 0 = -1 := by
      unfold csvProcRow
      rw [foldl_set_getD_not_mem]
      · exact getD_replicate _ _ _ _ hm
      · intro a ha hfa
        have h0 : 0 ≤ a := (hmach a ha).1
        have : a = (m : ℤ) := by omega
        rw [this] at ha
        exact hmem ha
    rw [hval, if_neg hmem]
    refine ⟨rfl, ⟨fun hge => ?_, fun hmm => absurd hmm hmem⟩⟩
    norm_num at hge

/-- Witness for C2 at concrete csv files: machine 0 is not usable
(sentinel -1), machine 1 is usable (Pieces over its speed). -/
theorem C2_witness :
    readJobTasks csvSmall.jobTasksRows = Except.ok [(0, [⟨0, 0, 0, [1], 6⟩])] ∧
    (∃ d, CSVData csvSmall = Except.ok d ∧
      ((d.task_processing_times_matrix.getD 0 []).getD 0 0 =
        if ((0 : ℕ) : ℤ) ∈ ((csvTasks [(0, [⟨0, 0, 0, [1], 6⟩])]).getD 0 default).usable
        then (((csvTasks [(0, [⟨0, 0, 0, [1], 6⟩])]).getD 0 default).pieces : ℚ) /
          d.machine_speeds.getD 0 0
        else -1) ∧
      ¬ (0 : ℚ) ≤ (d.task_processing_times_matrix.getD 0 []).getD 0 0 ∧
      ((d.task_processing_times_matrix.getD 0 []).getD 1 0 =
        if ((1 : ℕ) : ℤ) ∈ ((csvTasks [(0, [⟨0, 0, 0, [1], 6⟩])]).getD 0 default).usable
        then (((csvTasks [(0, [⟨0, 0, 0, [1], 6⟩])]).getD 0 default).pieces : ℚ) /
          d.machine_speeds.getD 1 0
        else -1) ∧
      (0 ≤ (d.task_processing_times_matrix.getD 0 []).getD 1 0 ↔
        ((1 : ℕ) : ℤ) ∈ ((csvTasks [(0, [⟨0, 0, 0, [1], 6⟩])]).getD 0 default).usable)) := by
  have hjobs : readJobTasks csvSmall.jobTasksRows =
      Except.ok [(0, [⟨0, 0, 0, [1], 6⟩])] := by decide
  have hok : CSVData csvSmall =
      Except.ok (csvRecord csvSmall [(0, [⟨0, 0, 0, [1], 6⟩])]) :=
    CSVData_eq_ok csvSmall [(0, [⟨0, 0, 0, [1], 6⟩])]
      (by decide) (by decide) (by decide)
  have h0 := C2_csv_proc_times csvSmall [(0, [⟨0, 0, 0, [1], 6⟩])]
    (csvRecord csvSmall [(0, [⟨0, 0, 0, [1], 6⟩])]) hjobs hok
    (by decide) (by decide) 0 (by decide) 0 (by decide)
  have h1 := C2_csv_proc_times csvSmall [(0, [⟨0, 0, 0, [1], 6⟩])]
    (csvRecord csvSmall [(0, [⟨0, 0, 0, [1], 6⟩])]) hjobs hok
    (by decide) (by decide) 0 (by decide) 1 (by decide)
  refine ⟨hjobs, csvRecord csvSmall [(0, [⟨0, 0, 0, [1], 6⟩])], hok,
    h0.1, ?_, h1.1, h1.2⟩
  intro hge
  have := h0.2.mp hge
  exact absurd this (by decide)

/-! ### Claim C8 -/

/-- Claim C8 (counterexample): FJSData accepts a task with an empty
usable-machine set — np.resize zero-fills its usable row, its
processing-time row stays all -1, and none of the construction's writes
raise — and both intakes accept negative processing times (runtime -5 in
fjs, Pieces -3 in csv). -/
theorem C8_counterexample :
    (fjsTasksAll fjsEmptyUsable = [[]] ∧ fjsOk fjsEmptyUsable = true ∧
      (FJSData fjsEmptyUsable).usable_machines_matrix = [[0, 0]] ∧
      (FJSData fjsEmptyUsable).task_processing_times_matrix = [[-1, -1]]) ∧
    (fjsOk fjsNegTime = true ∧
      (FJSData fjsNegTime).task_processing_times_matrix = [[-5]]) ∧
    isOk (CSVData csvNegPieces) = true ∧
    ((procOf (CSVData csvNegPieces)).getD 0 []).getD 0 0 < 0 := by
  refine ⟨by decide, by decide, by decide, ?_⟩
  have hok : CSVData csvNegPieces =
      Except.ok (csvRecord csvNegPieces [(0, [⟨0, 0, 0, [0], -3⟩])]) :=
    CSVData_eq_ok csvNegPieces [(0, [⟨0, 0, 0, [0], -3⟩])]
      (by decide) (by decide) (by decide)
  have hproc : procOf (CSVData csvNegPieces) =
      (csvRecord csvNegPieces [(0, [⟨0, 0, 0, [0], -3⟩])]).task_processing_times_matrix := by
    rw [hok]
    rfl
  rw [hproc]
  norm_num [csvRecord, csvTasks, csvProcRow, floatArray, csvNegPieces,
    List.foldl, List.set, List.getD]

/-- A parse failure anywhere in the job-tasks rows aborts the read. -/
theorem readJobTasksAux_error (rows : List JobTaskRow) :
    ∀ (prev : ℤ) (jobs : List (ℕ × List CTask)),
      (∃ r ∈ rows, parseIntList r.usableTokens = none) →
      ∃ e, readJobTasksAux prev jobs rows = Except.error e := by
  induction rows with
  | nil => intro _ _ h; simp at h
  | cons r rs ih =>
    intro prev jobs h
    cases hp : parseIntList r.usableTokens with
    | none => exact ⟨"ValueError", by simp [readJobTasksAux, hp]⟩
    | some us =>
      obtain ⟨r2, hr2, hr2p⟩ := h
      rcases List.mem_cons.mp hr2 with h1 | h1
      · rw [h1, hp] at hr2p
        cases hr2p
      · simp only [readJobTasksAux, hp]
        by_cases hlt : r.job <
            (if (r.job : ℤ) ≠ prev then jobs ++ [(r.job, [])] else jobs).length
        · rw [if_pos hlt]
          exact ih _ _ ⟨r2, h1, hr2p⟩
        · rw [if_neg hlt]
          exact ⟨"IndexError", rfl⟩

/-- Claim C8 as amended: the csv intake rejects an operation whose
usable-machine field is empty — the empty token `""` (what splitting the
empty bracket content produces) fails integer parsing, aborting
construction — while the fjs intake performs no such check: a task block
with an empty usable set gets a zero-filled usable row and an all-(-1)
processing-time row, and negative processing times pass both intakes
(shown by the counterexample). -/
theorem C8_intake_rejection :
    (∀ files : CSVFiles,
      (∃ r ∈ files.jobTasksRows, r.usableTokens = [""]) →
      ∃ e, CSVData files = Except.error e) ∧
    (∀ (f : FJSFile) (t : ℕ), t < (fjsTasksAll f).length →
      (fjsTasksAll f).getD t [] = [] →
      (FJSData f).usable_machines_matrix.getD t [] =
        List.replicate f.numMachines 0 ∧
      (FJSData f).task_processing_times_matrix.getD t [] =
        List.replicate f.numMachines (-1)) := by
  constructor
  · intro files h
    obtain ⟨r, hr, hrt⟩ := h
    have hnone : parseIntList r.usableTokens = none := by
      rw [hrt]
      rfl
    obtain ⟨e, he⟩ := readJobTasksAux_error files.jobTasksRows (-1) []
      ⟨r, hr, hnone⟩
    exact ⟨e, by simp only [CSVData, readJobTasks, he]⟩
  · intro f t ht hempty
    constructor
    · have : (FJSData f).usable_machines_matrix.getD t [] =
          npResize (((fjsTasksAll f).getD t []).map (fun p => p.1 - 1))
            f.numMachines := by
        show ((fjsTasksAll f).map (fun ps =>
          npResize (ps.map (fun p => p.1 - 1)) f.numMachines)).getD t [] = _
        exact getD_map_lt _ _ t [] [] ht
      rw [this, hempty]
      rfl
    · have : (FJSData f).task_processing_times_matrix.getD t [] =
          fjsProcRow f.numMachines ((fjsTasksAll f).getD t []) := by
        show ((fjsTasksAll f).map (fjsProcRow f.numMachines)).getD t [] = _
        exact getD_map_lt _ _ t [] [] ht
      rw [this, hempty]
      rfl

/-- Witness for C8 as amended: the concrete empty-usable csv file is
rejected; the concrete empty-usable fjs file gets a zero-filled row. -/
theorem C8_witness :
    ((∃ r ∈ csvEmptyUsable.jobTasksRows, r.usableTokens = [""]) ∧
      ∃ e, CSVData csvEmptyUsable = Except.error e) ∧
    ((0 : ℕ) < (fjsTasksAll fjsEmptyUsable).length ∧
      (fjsTasksAll fjsEmptyUsable).getD 0 [] = [] ∧
      (FJSData fjsEmptyUsable).usable_machines_matrix.getD 0 [] =
        List.replicate fjsEmptyUsable.numMachines 0 ∧
      (FJSData fjsEmptyUsable).task_processing_times_matrix.getD 0 [] =
        List.replicate fjsEmptyUsable.numMachines (-1)) := by
  constructor
  · exact ⟨⟨{ job := 0, task := 0, seq := 0, usableTokens := [""], pieces := 3 },
      by decide, rfl⟩,
      C8_intake_rejection.1 csvEmptyUsable
        ⟨{ job := 0, task := 0, seq := 0, usableTokens := [""], pieces := 3 },
          by decide, rfl⟩⟩
  · have h := C8_intake_rejection.2 fjsEmptyUsable 0 (by decide) (by decide)
    exact ⟨by decide, by decide, h.1, h.2⟩

/-! ### Claim C9 -/

/-- Claim C9: Task equality ignores the pieces field: two Tasks with equal
job id, task id, sequence and element-wise equal usable-machine arrays
compare equal under `Task.__eq__` even when their pieces differ. -/
theorem C9_task_eq_ignores_pieces (a b : Task)
    (h1 : a.job_id = b.job_id) (h2 : a.task_id = b.task_id)
    (h3 : a.sequence = b.sequence) (h4 : a.usable_machines = b.usable_machines)
    (_h5 : a.pieces ≠ b.pieces) : taskEq a b = true := by
  simp [taskEq, h1, h2, h3, h4]

/-- Witness for C9 at two concrete Tasks differing only in pieces. -/
theorem C9_witness :
    (5 : ℤ) ≠ 7 ∧ taskEq ⟨0, 1, 1, [0, 2], 5⟩ ⟨0, 1, 1, [0, 2], 7⟩ = true :=
  ⟨by decide, C9_task_eq_ignores_pieces ⟨0, 1, 1, [0, 2], 5⟩ ⟨0, 1, 1, [0, 2], 7⟩
    rfl rfl rfl rfl (by decide)⟩

/-! ### Claim C3 -/

/-- Claim C3: `Data.get_setup_time` returns 0 whenever any of its four
arguments is negative, and otherwise returns the sequence-dependency
entry at the two flat indices read from `job_task_index_matrix`. -/
theorem C3_get_setup_time (d : DataTables) (j1 t1 j2 t2 : ℤ) :
    ((j1 < 0 ∨ t1 < 0 ∨ j2 < 0 ∨ t2 < 0) → get_setup_time d j1 t1 j2 t2 = 0) ∧
    (0 ≤ j1 → 0 ≤ t1 → 0 ≤ j2 → 0 ≤ t2 →
      get_setup_time d j1 t1 j2 t2 =
        npGet2 d.sequence_dependency_matrix
          (npGet2 d.job_task_index_matrix j1 t1)
          (npGet2 d.job_task_index_matrix j2 t2)) := by
  constructor
  · intro h
    have hmin : min (min j1 t1) (min j2 t2) < 0 := by
      rcases h with h | h | h | h <;> simp [min_lt_iff, h]
    simp [get_setup_time, hmin]
  · intro h1 h2 h3 h4
    have hmin : ¬ min (min j1 t1) (min j2 t2) < 0 := by
      simp only [min_lt_iff]; omega
    simp [get_setup_time, hmin]

/-- Witness for C3 at a concrete table, both branches exercised. -/
theorem C3_witness :
    get_setup_time ⟨[[4, 5], [6, 7]], [[0, 1]]⟩ (-1) 0 0 0 = 0 ∧
    get_setup_time ⟨[[4, 5], [6, 7]], [[0, 1]]⟩ 0 1 0 0 = 6 := by
  constructor
  · exact (C3_get_setup_time ⟨[[4, 5], [6, 7]], [[0, 1]]⟩ (-1) 0 0 0).1
      (Or.inl (by decide))
  · have h := (C3_get_setup_time ⟨[[4, 5], [6, 7]], [[0, 1]]⟩ 0 1 0 0).2
      (by decide) (by decide) (by decide) (by decide)
    rw [h]; decide

/-! ### Claim C5 -/

/-- Claim C5: with no caller-supplied seeds the worker seed list is
exactly `num_processes` fresh solutions; with a supplied list of `n ≤ W`
solutions it is that list followed by `W - n` fresh solutions, so exactly
`W` workers are seeded. -/
theorem C5_seed_list (W : ℕ) (gen : ℕ → Sol) :
    (tsSeedSolutions none W gen = (List.range W).map gen ∧
      (tsSeedSolutions none W gen).length = W) ∧
    ∀ l : List Sol, l.length ≤ W →
      tsSeedSolutions (some l) W gen = l ++ (List.range (W - l.length)).map gen ∧
      (tsSeedSolutions (some l) W gen).length = W := by
  refine ⟨⟨rfl, by simp [tsSeedSolutions]⟩, fun l hl => ?_⟩
  have hmax : (max 0 ((W : ℤ) - l.length)).toNat = W - l.length := by omega
  refine ⟨by simp [tsSeedSolutions, hmax], ?_⟩
  simp [tsSeedSolutions, hmax]
  omega

/-- Witness for C5: three workers, one supplied seed, two fresh pads. -/
theorem C5_witness :
    ([⟨100, []⟩] : List Sol).length ≤ 3 ∧
    tsSeedSolutions (some [⟨100, []⟩]) 3 (fun i => ⟨(i : ℚ), []⟩) =
      [⟨100, []⟩, ⟨0, []⟩, ⟨1, []⟩] ∧
    (tsSeedSolutions (some [⟨100, []⟩]) 3 (fun i => ⟨(i : ℚ), []⟩)).length = 3 := by
  have h := (C5_seed_list 3 (fun i => ⟨(i : ℚ), []⟩)).2 [⟨100, []⟩] (by decide)
  exact ⟨by decide, by rw [h.1]; decide, h.2⟩

/-! ### Claim C4 -/

/-- Python `min` returns a member of the scanned list and its makespan is
a lower bound for all members. -/
theorem pyMinAux_spec (l : List Sol) (m : Sol) :
    pyMinAux m l ∈ m :: l ∧
    ∀ x ∈ m :: l, (pyMinAux m l).makespan ≤ x.makespan := by
  induction l generalizing m with
  | nil =>
    refine ⟨List.mem_singleton.mpr rfl, ?_⟩
    intro x hx
    rw [List.mem_singleton.mp hx]
    exact le_refl _
  | cons x xs ih =>
    have hstep : (if solLtB x m then x else m).makespan ≤ m.makespan ∧
        (if solLtB x m then x else m).makespan ≤ x.makespan := by
      cases hc : solLtB x m with
      | true =>
        rw [if_pos rfl]
        simp only [solLtB, Bool.or_eq_true, Bool.and_eq_true,
          decide_eq_true_eq] at hc
        rcases hc with hc | ⟨hc, _⟩
        · exact ⟨le_of_lt hc, le_refl _⟩
        · exact ⟨le_of_eq hc, le_refl _⟩
      | false =>
        rw [if_neg Bool.false_ne_true]
        have hnlt : ¬ x.makespan < m.makespan := by
          intro hlt
          have : solLtB x m = true := by
            simp [solLtB, hlt]
          rw [hc] at this
          cases this
        exact ⟨le_refl _, le_of_not_lt hnlt⟩
    obtain ⟨hmem, hle⟩ := ih (if solLtB x m then x else m)
    have hres : pyMinAux m (x :: xs) = pyMinAux (if solLtB x m then x else m) xs := rfl
    constructor
    · rw [hres]
      rcases List.mem_cons.mp hmem with h | h
      · rw [h]
        by_cases hc : solLtB x m = true <;> simp [hc]
      · simp [List.mem_cons, h]
    · intro y hy
      rw [hres]
      rcases List.mem_cons.mp hy with h | h
      · subst h
        exact le_trans (hle _ (List.mem_cons_self _ _)) hstep.1
      · rcases List.mem_cons.mp h with h2 | h2
        · subst h2
          exact le_trans (hle _ (List.mem_cons_self _ _)) hstep.2
        · exact hle _ (List.mem_cons_of_mem _ h2)

/-- Claim C4: the solution `_tabu_search` returns (and stores as
`ts_best_solution`) is the minimum of the collected per-worker results
under the Solution ordering: it is one of them, its makespan is less than
or equal to every collected makespan, and the minimum makespan does not
depend on the order in which results are listed. -/
theorem C4_coordinator_min (s : Sol) (rest l2 : List Sol)
    (hperm : l2.Perm (s :: rest)) :
    ts_best_solution (s :: rest) = some (pyMinAux s rest) ∧
    pyMinAux s rest ∈ s :: rest ∧
    (∀ x ∈ s :: rest, (pyMinAux s rest).makespan ≤ x.makespan) ∧
    ∀ t rest2, l2 = t :: rest2 →
      (pyMinAux t rest2).makespan = (pyMinAux s rest).makespan := by
  obtain ⟨hmem, hle⟩ := pyMinAux_spec rest s
  refine ⟨rfl, hmem, hle, fun t rest2 h2 => ?_⟩
  subst h2
  obtain ⟨hmem2, hle2⟩ := pyMinAux_spec rest2 t
  have h12 : (pyMinAux t rest2).makespan ≤ (pyMinAux s rest).makespan :=
    hle2 _ (hperm.mem_iff.mpr hmem)
  have h21 : (pyMinAux s rest).makespan ≤ (pyMinAux t rest2).makespan :=
    hle _ (hperm.mem_iff.mp hmem2)
  exact le_antisymm h12 h21

/-- Witness for C4: three worker results and a permutation of them. -/
theorem C4_witness :
    ([⟨4, []⟩, ⟨5, []⟩, ⟨3, []⟩] : List Sol).Perm
      (⟨5, []⟩ :: [⟨3, []⟩, ⟨4, []⟩]) ∧
    ts_best_solution (⟨5, []⟩ :: [⟨3, []⟩, ⟨4, []⟩]) =
      some (pyMinAux ⟨5, []⟩ [⟨3, []⟩, ⟨4, []⟩]) ∧
    pyMinAux ⟨5, []⟩ [⟨3, []⟩, ⟨4, []⟩] = ⟨3, []⟩ ∧
    (∀ x ∈ (⟨5, []⟩ :: [⟨3, []⟩, ⟨4, []⟩] : List Sol),
      (pyMinAux ⟨5, []⟩ [⟨3, []⟩, ⟨4, []⟩]).makespan ≤ x.makespan) ∧
    (pyMinAux ⟨4, []⟩ [⟨5, []⟩, ⟨3, []⟩]).makespan =
      (pyMinAux ⟨5, []⟩ [⟨3, []⟩, ⟨4, []⟩]).makespan := by
  have hperm : ([⟨4, []⟩, ⟨5, []⟩, ⟨3, []⟩] : List Sol).Perm
      (⟨5, []⟩ :: [⟨3, []⟩, ⟨4, []⟩]) := by decide
  have h := C4_coordinator_min ⟨5, []⟩ [⟨3, []⟩, ⟨4, []⟩]
    [⟨4, []⟩, ⟨5, []⟩, ⟨3, []⟩] hperm
  exact ⟨hperm, h.1, by decide, h.2.2.1, h.2.2.2 _ _ rfl⟩

/-! ### Claim C7 -/

/-- Building a seed batch fails as soon as one operation matrix is
infeasible. -/
theorem buildSeedBatch_error (inst : SimpleInstance) (arrays : List (List OpRow))
    (h : ∃ a ∈ arrays, feasibleSolution inst a = false) :
    ∃ e, buildSeedBatch inst arrays = Except.error e := by
  induction arrays with
  | nil => simp at h
  | cons r rest ih =>
    by_cases hr : feasibleSolution inst r = true
    · obtain ⟨a, ha, hfa⟩ := h
      rcases List.mem_cons.mp ha with h1 | h1
      · subst h1; rw [hr] at hfa; cases hfa
      · obtain ⟨e, he⟩ := ih ⟨a, h1, hfa⟩
        refine ⟨e, ?_⟩
        simp only [buildSeedBatch, mkSolution, dif_pos hr, he]
    · refine ⟨"InfeasibleSolutionException", ?_⟩
      simp only [buildSeedBatch, mkSolution, dif_neg hr]

/-- Claim C7: entering `_tabu_search` with a caller-supplied seed batch in
which some solution violates feasibility invariants (1)-(3) fails before
the search runs: the batch cannot pass the Solution gate. -/
theorem C7_infeasible_seed_rejected (inst : SimpleInstance)
    (arrays : List (List OpRow))
    (h : ∃ a ∈ arrays, feasibleSolution inst a = false) :
    ∃ e, tabu_search_seeded inst arrays = Except.error e := by
  obtain ⟨e, he⟩ := buildSeedBatch_error inst arrays h
  exact ⟨e, by simp only [tabu_search_seeded, he]⟩

/-- Witness for C7: a one-operation instance and a seed whose machine is
not usable (invariant (3) fails). -/
theorem C7_witness :
    feasibleSolution ⟨[1], [[[0]]]⟩ [⟨0, 0, 0, 1⟩] = false ∧
    ∃ e, tabu_search_seeded ⟨[1], [[[0]]]⟩ [[⟨0, 0, 0, 1⟩]] = Except.error e :=
  ⟨by decide, C7_infeasible_seed_rejected ⟨[1], [[[0]]]⟩ [[⟨0, 0, 0, 1⟩]]
    ⟨[⟨0, 0, 0, 1⟩], by decide, by decide⟩⟩

/-! ### Claim C1 -/

/-- Reading the element just appended. -/
theorem getD_append_length {α : Type} (l : List α) (x d : α) :
    (l ++ [x]).getD l.length d = x := by
  induction l with
  | nil => rfl
  | cons a t ih => simp [ih]

/-- Writing at the position just appended. -/
theorem set_append_length {α : Type} (l : List α) (x y : α) :
    (l ++ [x]).set l.length y = l ++ [y] := by
  induction l with
  | nil => rfl
  | cons a t ih => simp [List.set_cons_succ, ih]

/-- `appendTask` targeting the job at the end of the list. -/
theorem appendTask_last (acc : List (ℕ × List CTask)) (x : ℕ × List CTask)
    (t : CTask) :
    appendTask (acc ++ [x]) acc.length t = acc ++ [(x.1, x.2 ++ [t])] := by
  unfold appendTask
  rw [getD_append_length, set_append_length]

/-- The machine tokens of a converted row parse back to the decremented
machine ids. -/
theorem parse_convert_tokens (ps : Block) :
    parseIntList (ps.map (fun p => intRepr (p.1 - 1))) =
      some (ps.map (fun p => p.1 - 1)) := by
  have h : ps.map (fun p => intRepr (p.1 - 1)) =
      (ps.map (fun p => p.1 - 1)).map intRepr := by
    rw [List.map_map]
    rfl
  rw [h, parseIntList_map_intRepr]

/-- A converted row carrying the id of the job at the end of the
accumulator appends its task to that job. -/
theorem readJobTasksAux_step (ps : Block) (jobId taskId : ℕ)
    (acc : List (ℕ × List CTask)) (cur : List CTask) (rs : List JobTaskRow)
    (hlen : acc.length = jobId) :
    readJobTasksAux (jobId : ℤ) (acc ++ [(jobId, cur)])
      ({ job := jobId, task := taskId, seq := taskId,
         usableTokens := ps.map (fun p => intRepr (p.1 - 1)),
         pieces := ps.headI.2 : JobTaskRow } :: rs) =
    readJobTasksAux (jobId : ℤ)
      (acc ++ [(jobId, cur ++ [⟨jobId, taskId, taskId,
        ps.map (fun p => p.1 - 1), ps.headI.2⟩])]) rs := by
  simp only [readJobTasksAux, parse_convert_tokens]
  rw [if_neg (show ¬ ((jobId : ℤ) ≠ (jobId : ℤ)) by simp)]
  rw [if_pos (show jobId < (acc ++ [(jobId, cur)]).length by
    rw [List.length_append, hlen]
    simp)]
  rw [← hlen, appendTask_last]

/-- A converted row carrying a fresh job id opens a new job at the end of
the accumulator and appends its task there. -/
theorem readJobTasksAux_new (ps : Block) (jobId taskId : ℕ) (prev : ℤ)
    (acc : List (ℕ × List CTask)) (rs : List JobTaskRow)
    (hlen : acc.length = jobId) (hprev : (jobId : ℤ) ≠ prev) :
    readJobTasksAux prev acc
      ({ job := jobId, task := taskId, seq := taskId,
         usableTokens := ps.map (fun p => intRepr (p.1 - 1)),
         pieces := ps.headI.2 : JobTaskRow } :: rs) =
    readJobTasksAux (jobId : ℤ)
      (acc ++ [(jobId, [⟨jobId, taskId, taskId,
        ps.map (fun p => p.1 - 1), ps.headI.2⟩])]) rs := by
  simp only [readJobTasksAux, parse_convert_tokens]
  rw [if_pos hprev]
  have hcond : jobId < (acc ++ [((jobId : ℕ), ([] : List CTask))]).length := by
    rw [List.length_append, hlen]
    simp
  rw [if_pos hcond]
  rw [← hlen, appendTask_last]
  simp

/-- Processing the rows of one converted job line appends its tasks, in
order, to the job opened at the end of the accumulator. -/
theorem readJobTasksAux_run (tasks : List Block) :
    ∀ (jobId taskId : ℕ) (acc : List (ℕ × List CTask)) (cur : List CTask)
      (rest : List JobTaskRow),
      acc.length = jobId →
      readJobTasksAux (jobId : ℤ) (acc ++ [(jobId, cur)])
        (convertLineRows jobId taskId tasks ++ rest) =
      readJobTasksAux (jobId : ℤ)
        (acc ++ [(jobId, cur ++ blockTasks jobId taskId tasks)]) rest := by
  induction tasks with
  | nil =>
    intro jobId taskId acc cur rest _
    simp [convertLineRows, blockTasks]
  | cons ps ts ih =>
    intro jobId taskId acc cur rest hlen
    rw [show convertLineRows jobId taskId (ps :: ts) =
      { job := jobId, task := taskId, seq := taskId,
        usableTokens := ps.map (fun p => intRepr (p.1 - 1)),
        pieces := ps.headI.2 : JobTaskRow } ::
        convertLineRows jobId (taskId + 1) ts from rfl]
    rw [List.cons_append]
    rw [readJobTasksAux_step ps jobId taskId acc cur _ hlen]
    rw [ih jobId (taskId + 1) acc _ rest hlen]
    rw [show blockTasks jobId taskId (ps :: ts) =
      ⟨jobId, taskId, taskId, ps.map (fun p => p.1 - 1), ps.headI.2⟩ ::
        blockTasks jobId (taskId + 1) ts from rfl]
    rw [List.append_assoc]
    rfl

/-- Reading back all converted rows groups them into one job per line,
with ascending ids and tasks in block order. -/
theorem readJobTasksAux_convert (jobs : List (List Block)) :
    ∀ (jobId : ℕ) (acc : List (ℕ × List CTask)),
      acc.length = jobId →
      (∀ tasks ∈ jobs, tasks ≠ []) →
      readJobTasksAux ((jobId : ℤ) - 1) acc
        ((convertRowsAux jobId (jobs.map encodeLine)).flatten) =
      Except.ok (acc ++ jobsPairs jobId jobs) := by
  induction jobs with
  | nil =>
    intro jobId acc _ _
    simp [convertRowsAux, readJobTasksAux, jobsPairs]
  | cons tasks rest ih =>
    intro jobId acc hlen hne
    have hstep : convertRowsAux jobId ((tasks :: rest).map encodeLine) =
        convertLineRows jobId 0 tasks ::
          convertRowsAux (jobId + 1) (rest.map encodeLine) := by
      show convertLineRows jobId 0 (taskBlocks (encodeLine tasks).tail) :: _ = _
      rw [taskBlocks_encodeLine]
    rw [hstep, List.flatten_cons]
    obtain ⟨ps, ts, rfl⟩ :=
      List.exists_cons_of_ne_nil (hne tasks (List.mem_cons_self _ _))
    rw [show convertLineRows jobId 0 (ps :: ts) =
      { job := jobId, task := 0, seq := 0,
        usableTokens := ps.map (fun p => intRepr (p.1 - 1)),
        pieces := ps.headI.2 : JobTaskRow } ::
        convertLineRows jobId 1 ts from rfl]
    rw [List.cons_append]
    rw [readJobTasksAux_new ps jobId 0 ((jobId : ℤ) - 1) acc _ hlen (by omega)]
    rw [readJobTasksAux_run ts jobId 1 acc
      [⟨jobId, 0, 0, ps.map (fun p => p.1 - 1), ps.headI.2⟩] _ hlen]
    have hcast : ((jobId : ℤ)) = ((jobId + 1 : ℕ) : ℤ) - 1 := by push_cast; ring
    rw [hcast, List.singleton_append]
    rw [ih (jobId + 1)
      (acc ++ [(jobId, ⟨jobId, 0, 0, ps.map (fun p => p.1 - 1), ps.headI.2⟩ ::
        blockTasks jobId 1 ts)])
      (by rw [List.length_append, hlen]; simp)
      (fun x hx => hne x (List.mem_cons_of_mem _ hx))]
    rw [List.append_assoc]
    rfl

/-- The csv read of a converted well-formed instance succeeds with one
job per line. -/
theorem readJobTasks_convert (s : FJSShape)
    (hne : ∀ tasks ∈ s.jobs, tasks ≠ []) :
    readJobTasks (convertRows (encodeFJS s)) =
      Except.ok (jobsPairs 0 s.jobs) := by
  show readJobTasksAux (-1) [] ((convertRowsAux 0 (s.jobs.map encodeLine)).flatten) = _
  have h := readJobTasksAux_convert s.jobs 0 [] rfl hne
  simpa using h

/-- The expected task list of one job has one task per block. -/
theorem blockTasks_length (jobId : ℕ) (tasks : List Block) :
    ∀ k, (blockTasks jobId k tasks).length = tasks.length := by
  induction tasks with
  | nil => intro k; rfl
  | cons ps ts ih => intro k; simp [blockTasks, ih]

/-- The expected job list has one entry per job. -/
theorem jobsPairs_length (jobs : List (List Block)) :
    ∀ j, (jobsPairs j jobs).length = jobs.length := by
  induction jobs with
  | nil => intro j; rfl
  | cons tasks rest ih => intro j; simp [jobsPairs, ih]

/-- Task flattening decomposes job by job. -/
theorem csvTasks_jobsPairs_cons (j : ℕ) (tasks : List Block)
    (rest : List (List Block)) :
    csvTasks (jobsPairs j (tasks :: rest)) =
      blockTasks j 0 tasks ++ csvTasks (jobsPairs (j + 1) rest) := rfl

/-- The flattened expected tasks are in bijection with the blocks. -/
theorem csvTasks_length (jobs : List (List Block)) :
    ∀ j, (csvTasks (jobsPairs j jobs)).length = jobs.flatten.length := by
  induction jobs with
  | nil => intro j; rfl
  | cons tasks rest ih =>
    intro j
    rw [csvTasks_jobsPairs_cons]
    simp [blockTasks_length, ih]

/-- Mapping a per-task function that only depends on the underlying block
over one job's expected tasks. -/
theorem blockTasks_map {α : Type} (g : CTask → α) (G : Block → α)
    (jobId : ℕ) (tasks : List Block)
    (h : ∀ ps ∈ tasks, ∀ k : ℕ,
      g ⟨jobId, k, k, ps.map (fun p => p.1 - 1), ps.headI.2⟩ = G ps) :
    ∀ k, (blockTasks jobId k tasks).map g = tasks.map G := by
  induction tasks with
  | nil => intro k; rfl
  | cons ps ts ih =>
    intro k
    show g ⟨jobId, k, k, ps.map (fun p => p.1 - 1), ps.headI.2⟩ ::
      (blockTasks jobId (k + 1) ts).map g = G ps :: ts.map G
    rw [h ps (List.mem_cons_self _ _) k,
      ih (fun q hq => h q (List.mem_cons_of_mem _ hq)) (k + 1)]

/-- Mapping a per-task function that only depends on the underlying block
over all expected tasks. -/
theorem csvTasks_map {α : Type} (g : CTask → α) (G : Block → α)
    (jobs : List (List Block))
    (h : ∀ tasks ∈ jobs, ∀ ps ∈ tasks, ∀ j k : ℕ,
      g ⟨j, k, k, ps.map (fun p => p.1 - 1), ps.headI.2⟩ = G ps) :
    ∀ j, (csvTasks (jobsPairs j jobs)).map g = jobs.flatten.map G := by
  induction jobs with
  | nil => intro j; rfl
  | cons tasks rest ih =>
    intro j
    rw [csvTasks_jobsPairs_cons, List.map_append, List.flatten_cons,
      List.map_append,
      blockTasks_map g G j tasks
        (fun ps hps k => h tasks (List.mem_cons_self _ _) ps hps j k) 0,
      ih (fun ts hts => h ts (List.mem_cons_of_mem _ hts)) (j + 1)]

/-- The converted machine speeds are all 1. -/
theorem floatArray_replicate_one (m : ℕ) :
    floatArray (List.replicate m (1 : ℤ)) = List.replicate m (1 : ℚ) := by
  unfold floatArray
  rw [List.map_replicate]
  norm_num

/-- With unit speeds and a uniform runtime per block, the processing-time
row built by the csv intake from a converted row equals the row the fjs
intake builds from the block. -/
theorem procRow_fold_eq (m : ℕ) (c : ℤ) (ps : Block)
    (hm : ∀ p ∈ ps, 1 ≤ p.1 ∧ p.1 ≤ (m : ℤ))
    (hu : ∀ p ∈ ps, p.2 = c) :
    ∀ init : List ℚ,
      ps.foldl (fun row p => row.set (p.1 - 1).toNat
        ((c : ℚ) / (floatArray (List.replicate m 1)).getD (p.1 - 1).toNat 0))
        init =
      ps.foldl (fun row p => row.set (p.1 - 1).toNat (p.2 : ℚ)) init := by
  induction ps with
  | nil => intro init; rfl
  | cons p ts ih =>
    intro init
    have hp := hm p (List.mem_cons_self _ _)
    have hidx : (p.1 - 1).toNat < m := by omega
    have hspeed : (floatArray (List.replicate m 1)).getD (p.1 - 1).toNat 0 = 1 := by
      rw [floatArray_replicate_one]
      exact getD_replicate _ _ _ _ hidx
    have hval : (c : ℚ) / (floatArray (List.replicate m 1)).getD (p.1 - 1).toNat 0 =
        (p.2 : ℚ) := by
      rw [hspeed, div_one, hu p (List.mem_cons_self _ _)]
    show List.foldl _ (init.set (p.1 - 1).toNat
      ((c : ℚ) / (floatArray (List.replicate m 1)).getD (p.1 - 1).toNat 0)) ts = _
    rw [hval]
    exact ih (fun q hq => hm q (List.mem_cons_of_mem _ hq))
      (fun q hq => hu q (List.mem_cons_of_mem _ hq)) _

/-- Per-task form of the processing-time row equality. -/
theorem procRow_eq (m : ℕ) (j k : ℕ) (ps : Block)
    (hm : ∀ p ∈ ps, 1 ≤ p.1 ∧ p.1 ≤ (m : ℤ))
    (hu : ∀ p ∈ ps, p.2 = ps.headI.2) :
    csvProcRow m (floatArray (List.replicate m 1))
      ⟨j, k, k, ps.map (fun p => p.1 - 1), ps.headI.2⟩ = fjsProcRow m ps := by
  unfold csvProcRow fjsProcRow
  rw [List.foldl_map]
  exact procRow_fold_eq m ps.headI.2 ps hm hu _

/-- Every expected job pair carries an in-range id and the tasks of one
of the instance's jobs. -/
theorem pair_mem_jobsPairs (jobs : List (List Block)) :
    ∀ (j0 : ℕ) (pr : ℕ × List CTask), pr ∈ jobsPairs j0 jobs →
      pr.1 < j0 + jobs.length ∧
      ∃ tasks ∈ jobs, pr.2 = blockTasks pr.1 0 tasks := by
  induction jobs with
  | nil => intro j0 pr h; simp [jobsPairs] at h
  | cons tasks rest ih =>
    intro j0 pr h
    rcases List.mem_cons.mp h with h1 | h1
    · subst h1
      exact ⟨by simp, tasks, List.mem_cons_self _ _, rfl⟩
    · obtain ⟨hlt, tasks2, ht2, heq⟩ := ih (j0 + 1) pr h1
      refine ⟨by simp at hlt ⊢; omega, tasks2, List.mem_cons_of_mem _ ht2, heq⟩

/-- Field bounds for the expected tasks of one job. -/
theorem mem_blockTasks_props (jobId : ℕ) (tasks : List Block) :
    ∀ (k : ℕ) (tk : CTask), tk ∈ blockTasks jobId k tasks →
      tk.job_id = jobId ∧ tk.task_id < k + tasks.length ∧
      ∃ ps ∈ tasks, tk.usable = ps.map (fun p => p.1 - 1) := by
  induction tasks with
  | nil => intro k tk h; simp [blockTasks] at h
  | cons ps ts ih =>
    intro k tk h
    rcases List.mem_cons.mp h with h1 | h1
    · subst h1
      exact ⟨rfl, by simp, ps, List.mem_cons_self _ _, rfl⟩
    · obtain ⟨h2, h3, ps2, hps2, h4⟩ := ih (k + 1) tk h1
      exact ⟨h2, by simp at h3 ⊢; omega, ps2, List.mem_cons_of_mem _ hps2, h4⟩

/-- Every flattened task belongs to some job pair. -/
theorem mem_csvTasks_pair (jobs2 : List (ℕ × List CTask)) (tk : CTask)
    (h : tk ∈ csvTasks jobs2) : ∃ pr ∈ jobs2, tk ∈ pr.2 := by
  unfold csvTasks at h
  obtain ⟨l, hl, htk⟩ := List.mem_flatten.mp h
  obtain ⟨pr, hpr, rfl⟩ := List.mem_map.mp hl
  exact ⟨pr, hpr, htk⟩

/-- The matrix-write bounds hold for the converted rows of a well-formed
instance. -/
theorem csvChecks_convert (s : FJSShape) (hwf : FJSWellFormed s) :
    csvChecks (jobsPairs 0 s.jobs) (fjsBlocks s).length s.numMachines = true := by
  obtain ⟨_, hwfj⟩ := hwf
  unfold csvChecks
  simp only [Bool.and_eq_true, decide_eq_true_eq, List.all_eq_true]
  constructor
  · rw [csvTasks_length s.jobs 0]
    exact le_refl _
  · intro tk htk
    obtain ⟨pr, hpr, htk2⟩ := mem_csvTasks_pair _ tk htk
    obtain ⟨hpr1, tasks, htasks, hpr2⟩ := pair_mem_jobsPairs s.jobs 0 pr hpr
    rw [hpr2] at htk2
    obtain ⟨hjob, htask, ps, hps, husable⟩ :=
      mem_blockTasks_props pr.1 tasks 0 tk htk2
    refine ⟨⟨?_, ?_⟩, ?_⟩
    · intro mi hmi
      rw [husable] at hmi
      obtain ⟨p, hp, rfl⟩ := List.mem_map.mp hmi
      obtain ⟨_, hbw⟩ := hwfj tasks htasks
      obtain ⟨_, hpw⟩ := hbw ps hps
      obtain ⟨h1, h2⟩ := hpw p hp
      refine ⟨by omega, by omega⟩
    · rw [jobsPairs_length s.jobs 0, hjob]
      simpa using hpr1
    · have hlen : tk.task_id < pr.2.length := by
        rw [hpr2, blockTasks_length]
        simpa using htask
      have hle := (foldl_max_spec (jobsPairs 0 s.jobs)
        (fun pr => pr.2.length) 0).1 pr hpr
      omega

/-- Claim C1 (counterexample to the element-wise processing-time
equality as universally stated): on the fjs file whose single task runs
in 3 minutes on machine 1 and 5 minutes on machine 2, the conversion
writes `Pieces = 3` (the first listed runtime, data.py:282), so the csv
intake gives machine 2 the processing time 3 while the fjs intake gives
it 5. -/
theorem C1_counterexample :
    (∃ d2, CSVData (convert_fjs_to_csv fjsLossy) = Except.ok d2 ∧
      (d2.task_processing_times_matrix.getD 0 []).getD 1 0 = 3) ∧
    ((FJSData fjsLossy).task_processing_times_matrix.getD 0 []).getD 1 0 = 5 ∧
    (3 : ℚ) ≠ 5 := by
  refine ⟨?_, by decide, by norm_num⟩
  have hread : readJobTasks (convert_fjs_to_csv fjsLossy).jobTasksRows =
      Except.ok [(0, [⟨0, 0, 0, [0, 1], 3⟩])] := by decide
  have hok : CSVData (convert_fjs_to_csv fjsLossy) =
      Except.ok (csvRecord (convert_fjs_to_csv fjsLossy)
        [(0, [⟨0, 0, 0, [0, 1], 3⟩])]) :=
    CSVData_eq_ok _ _ hread (by decide) (by decide)
  refine ⟨_, hok, ?_⟩
  norm_num [csvRecord, csvTasks, csvProcRow, floatArray, convert_fjs_to_csv,
    fjsLossy, List.foldl, List.set, List.getD]

/-- Claim C1 as amended: converting a well-formed fjs file to csv and
reading it back yields an instance agreeing with the directly-read
FJSData instance on the job, machine and task counts and on the
usable-machine matrix, with the dependency matrix all-zero on both
sides; the processing-time matrices also agree element-wise provided
every task block lists the same runtime on all of its machines (the csv
format carries a single Pieces value per task — the conversion keeps the
first listed runtime, so non-uniform blocks are flattened to it). -/
theorem C1_round_trip (s : FJSShape) (hwf : FJSWellFormed s) :
    ∃ d2, CSVData (convert_fjs_to_csv (encodeFJS s)) = Except.ok d2 ∧
      d2.total_number_of_jobs = (FJSData (encodeFJS s)).total_number_of_jobs ∧
      d2.total_number_of_machines =
        (FJSData (encodeFJS s)).total_number_of_machines ∧
      d2.total_number_of_tasks = (FJSData (encodeFJS s)).total_number_of_tasks ∧
      d2.usable_machines_matrix = (FJSData (encodeFJS s)).usable_machines_matrix ∧
      (UniformTimes s →
        d2.task_processing_times_matrix =
          (FJSData (encodeFJS s)).task_processing_times_matrix) ∧
      d2.sequence_dependency_matrix =
        List.replicate (FJSData (encodeFJS s)).total_number_of_tasks
          (List.replicate (FJSData (encodeFJS s)).total_number_of_tasks 0) ∧
      (FJSData (encodeFJS s)).sequence_dependency_matrix =
        List.replicate (FJSData (encodeFJS s)).total_number_of_tasks
          (List.replicate (FJSData (encodeFJS s)).total_number_of_tasks 0) := by
  obtain ⟨hjobs, hwfj⟩ := hwf
  have hread : readJobTasks (convert_fjs_to_csv (encodeFJS s)).jobTasksRows =
      Except.ok (jobsPairs 0 s.jobs) :=
    readJobTasks_convert s (fun tasks ht => (hwfj tasks ht).1)
  have hne : jobsPairs 0 s.jobs ≠ [] := by
    obtain ⟨tasks, rest, hj⟩ := List.exists_cons_of_ne_nil hjobs
    rw [hj]
    simp [jobsPairs]
  have hT : (convert_fjs_to_csv (encodeFJS s)).seqDepRows.length =
      (fjsBlocks s).length := by
    show (List.replicate (encodeFJS s).totalTasks _).length = _
    rw [List.length_replicate, totalTasks_encode]
  have hM : (convert_fjs_to_csv (encodeFJS s)).machineSpeedRows.length =
      s.numMachines := by
    show (List.replicate (encodeFJS s).numMachines (1 : ℤ)).length = _
    rw [List.length_replicate]
    rfl
  have hchk : csvChecks (jobsPairs 0 s.jobs)
      (convert_fjs_to_csv (encodeFJS s)).seqDepRows.length
      (convert_fjs_to_csv (encodeFJS s)).machineSpeedRows.length = true := by
    rw [hT, hM]
    exact csvChecks_convert s ⟨hjobs, hwfj⟩
  have hok := CSVData_eq_ok (convert_fjs_to_csv (encodeFJS s)) _ hread hne hchk
  refine ⟨_, hok, ?_, ?_, ?_, ?_, ?_, ?_, rfl⟩
  · show (jobsPairs 0 s.jobs).length = (encodeFJS s).numJobs
    rw [jobsPairs_length]
    rfl
  · exact hM
  · show (convert_fjs_to_csv (encodeFJS s)).seqDepRows.length =
      (encodeFJS s).totalTasks
    rw [hT, totalTasks_encode]
  · show (csvTasks (jobsPairs 0 s.jobs)).map (fun tk =>
      npResize tk.usable (convert_fjs_to_csv (encodeFJS s)).machineSpeedRows.length) =
      (fjsTasksAll (encodeFJS s)).map (fun ps =>
        npResize (ps.map (fun p => p.1 - 1)) (encodeFJS s).numMachines)
    rw [hM, fjsTasksAll_encode]
    exact csvTasks_map _ _ s.jobs (fun tasks _ ps _ j k => rfl) 0
  · intro hu
    show (csvTasks (jobsPairs 0 s.jobs)).map (csvProcRow
      (convert_fjs_to_csv (encodeFJS s)).machineSpeedRows.length
      (floatArray (convert_fjs_to_csv (encodeFJS s)).machineSpeedRows)) =
      (fjsTasksAll (encodeFJS s)).map (fjsProcRow (encodeFJS s).numMachines)
    rw [hM, fjsTasksAll_encode]
    have hsp : (convert_fjs_to_csv (encodeFJS s)).machineSpeedRows =
        List.replicate s.numMachines (1 : ℤ) := rfl
    rw [hsp]
    apply csvTasks_map
    intro tasks htasks ps hps j k
    obtain ⟨_, hbw⟩ := hwfj tasks htasks
    obtain ⟨_, hpw⟩ := hbw ps hps
    exact procRow_eq s.numMachines j k ps hpw (hu tasks htasks ps hps)
  · show (convert_fjs_to_csv (encodeFJS s)).seqDepRows.map (fun r => r.tail) =
      List.replicate (encodeFJS s).totalTasks
        (List.replicate (encodeFJS s).totalTasks 0)
    show (List.replicate (encodeFJS s).totalTasks
      (List.replicate ((encodeFJS s).totalTasks + 1) (0 : ℤ))).map
        (fun r => r.tail) = _
    rw [List.map_replicate]
    rfl

/-- Witness for C1 at a concrete two-job instance with uniform runtimes. -/
theorem C1_witness :
    FJSWellFormed fjsSmall ∧ UniformTimes fjsSmall ∧
    ∃ d2, CSVData (convert_fjs_to_csv (encodeFJS fjsSmall)) = Except.ok d2 ∧
      d2.total_number_of_jobs = (FJSData (encodeFJS fjsSmall)).total_number_of_jobs ∧
      d2.total_number_of_machines =
        (FJSData (encodeFJS fjsSmall)).total_number_of_machines ∧
      d2.total_number_of_tasks =
        (FJSData (encodeFJS fjsSmall)).total_number_of_tasks ∧
      d2.usable_machines_matrix =
        (FJSData (encodeFJS fjsSmall)).usable_machines_matrix ∧
      (UniformTimes fjsSmall →
        d2.task_processing_times_matrix =
          (FJSData (encodeFJS fjsSmall)).task_processing_times_matrix) ∧
      d2.sequence_dependency_matrix =
        List.replicate (FJSData (encodeFJS fjsSmall)).total_number_of_tasks
          (List.replicate (FJSData (encodeFJS fjsSmall)).total_number_of_tasks 0) ∧
      (FJSData (encodeFJS fjsSmall)).sequence_dependency_matrix =
        List.replicate (FJSData (encodeFJS fjsSmall)).total_number_of_tasks
          (List.replicate (FJSData (encodeFJS fjsSmall)).total_number_of_tasks 0) :=
  ⟨by decide, by decide, C1_round_trip fjsSmall (by decide)⟩

end JSSP
